import Mathlib

/-!
# Verification of the `file-transformation` data-access facade

Shallow embedding of the two source files of the repository:

* `backend/helper/helper.go` — the type-coercion helpers `ToString` and `ToInt`;
* `backend/database/mongodb/mongodb.go` — the `MongodbStorage` facade
  (`NewMongo`, `HealthCheck`, `InsertOne`, `InsertMany`, `Upsert`, `FindOne`,
  `FindMany`, `Delete`) and the option-translation function `buildOptions`.

Go `any` values that flow through the helpers and the option map are modelled
by the inductive `GoValue`.  A Go `float64` is modelled by the decimal numeral
it was constructed from (`GoFloat`, value `mant * 10 ^ exp`); this model is
faithful for numerals of at most 15 significant digits, which convert to
`float64` and back without change (the round-trip guarantee of IEEE binary64),
and every concrete float mentioned by the specification is of that form.

The external MongoDB client is not code of this repository.  The facade is
therefore parameterised by a `Client` record of response functions (so that
theorems about control flow, traces and error propagation quantify over every
possible client behaviour), and a reference document store `MongoStore` is
modelled from the specification's description of the collaborator, for the
claims whose content is the effect of an operation on the stored documents.
-/

/-! ## Go values (`any`), and the decimal model of `float64` -/

/-- A Go `float64` modelled by the decimal numeral it was constructed from:
the value is `mant * 10 ^ exp`.  Faithful for numerals of at most 15
significant digits, which round-trip exactly through IEEE binary64. -/
structure GoFloat where
  mant : Int
  exp : Int
  deriving DecidableEq, Repr

/-- The rational value denoted by a `GoFloat`. -/
def GoFloat.toRat (f : GoFloat) : ℚ :=
  (f.mant : ℚ) * (10 : ℚ) ^ f.exp

/-- A Go `any` value, restricted to the shapes that reach the helpers and the
option map in this repository: strings, `float64`, `int`, `bool`. -/
inductive GoValue where
  | VString : String → GoValue
  | VFloat : GoFloat → GoValue
  | VInt : Int → GoValue
  | VBool : Bool → GoValue
  deriving DecidableEq, Repr

/-! ## Decimal digit strings

`natRepr` renders a natural number in base 10 (most significant digit first);
`parseDigits` reads a non-empty all-digit character list back.  These embed the
digit-level behaviour of Go's `strconv` used by `helper.ToInt`, and of the
plain-decimal rendering used by `helper.ToString`. -/

/-- The character for a single decimal digit `d < 10`. -/
def digitChar (d : Nat) : Char :=
  Char.ofNat (48 + d)

/-- The numeric value of a decimal digit character, if it is one. -/
def digitVal (c : Char) : Option Nat :=
  if 48 ≤ c.toNat ∧ c.toNat ≤ 57 then some (c.toNat - 48) else none

/-- Base-10 rendering of a natural number, most significant digit first. -/
def natRepr (n : Nat) : List Char :=
  if h : n < 10 then [digitChar n]
  else natRepr (n / 10) ++ [digitChar (n % 10)]
  decreasing_by exact Nat.div_lt_self (by omega) (by omega)

/-- Left-to-right accumulator pass of a base-10 parse. -/
def parseDigitsGo (acc : Nat) : List Char → Option Nat
  | [] => some acc
  | c :: cs =>
    match digitVal c with
    | some d => parseDigitsGo (acc * 10 + d) cs
    | none => none

/-- Parse a non-empty list of decimal digit characters; `none` if the list is
empty or contains a non-digit. -/
def parseDigits : List Char → Option Nat
  | [] => none
  | cs => parseDigitsGo 0 cs

/-- Base-10 rendering of an integer (minus sign for negative values), as
produced by Go's default `%v` formatting of integers. -/
def intRepr (n : Int) : List Char :=
  if n < 0 then '-' :: natRepr n.natAbs else natRepr n.natAbs

/-! ## IEEE binary64 semantics

The runtime value of a Go `float64` is the IEEE binary64 rounding of the
numeral it was constructed from, not the numeral itself; the conversion
`int64(f)` consumes that binary value.  `float64Round` implements binary64
rounding exactly: round to nearest with ties to even, 53-bit significand,
subnormal exponent clamp at `2 ^ (-1074)`.  Overflow to infinity is not
modelled (a Go constant that overflows `float64` does not compile), so the
theorems that use exactness restrict to the finite-double range. -/

/-- Fuel-driven binary logarithm (`natLog2Aux fuel n = ⌊log2 n⌋` whenever
`n ≤ fuel`); structural recursion on the fuel keeps it kernel-reducible. -/
def natLog2Aux : Nat → Nat → Nat
  | 0, _ => 0
  | fuel + 1, n => if n < 2 then 0 else natLog2Aux fuel (n / 2) + 1

/-- Binary logarithm, rounded down (`n ≥ 1`). -/
def natLog2 (n : Nat) : Nat :=
  natLog2Aux n n

/-- The binary exponent of a positive rational: the unique `t` with
`2 ^ t ≤ q < 2 ^ (t + 1)`. -/
def ratLog2 (q : ℚ) : Int :=
  let c : Int := (natLog2 q.num.natAbs : Int) - (natLog2 q.den : Int)
  if q < (2 : ℚ) ^ c then c - 1 else c

/-- Round a rational to the nearest integer, ties to even. -/
def roundNearestEven (q : ℚ) : Int :=
  let fl := ⌊q⌋
  let fr := q - fl
  if fr < 1 / 2 then fl
  else if 1 / 2 < fr then fl + 1
  else if fl % 2 = 0 then fl else fl + 1

/-- Round a rational to the IEEE binary64 grid: scale into the 53-bit
significand window (clamped at the subnormal exponent `-1074`), round to
nearest even, and scale back. -/
def float64Round (q : ℚ) : ℚ :=
  if q = 0 then 0
  else
    let e : Int := max (ratLog2 |q| - 52) (-1074)
    (if q < 0 then (-1 : ℚ) else 1) * (roundNearestEven (|q| / (2 : ℚ) ^ e) : ℚ)
      * (2 : ℚ) ^ e

/-- The binary64 value a `GoFloat` numeral denotes at runtime. -/
def GoFloat.float64Val (f : GoFloat) : ℚ :=
  float64Round f.toRat

/-- Go's `int64(v)` conversion of a `float64` value: the value truncated
toward zero when that integer is representable in `int64`; otherwise the
result is implementation-dependent in Go, modelled here as the amd64 result
`-2 ^ 63`. -/
def int64Trunc (v : ℚ) : Int :=
  let t : Int := if 0 ≤ v then ⌊v⌋ else ⌈v⌉
  if -(2 ^ 63) ≤ t ∧ t ≤ 2 ^ 63 - 1 then t else -(2 ^ 63)

/-- The `int64(i)` conversion applied to a `GoFloat`: truncation toward zero
of its binary64 value, under the `int64` range. -/
def GoFloat.truncToInt (f : GoFloat) : Int :=
  int64Trunc f.float64Val

namespace helper

/-! ## `helper.ToInt` (helper.go lines 22–35) -/

/-- Embedding of Go's `strconv.Atoi` (= `ParseInt(s, 10, 0)` on a 64-bit
platform): an optional leading `+` or `-`, then a non-empty run of decimal
digits, and the value must fit in `int64`; every other input is an error,
rendered here as `none`. -/
def goAtoi (s : String) : Option Int :=
  let cs := s.toList
  let signed : Int × List Char :=
    match cs with
    | [] => (1, [])
    | c :: r => if c = '+' then (1, r) else if c = '-' then (-1, r) else (1, c :: r)
  match parseDigits signed.2 with
  | none => none
  | some n =>
    let v : Int := signed.1 * n
    if -(2 ^ 63) ≤ v ∧ v ≤ 2 ^ 63 - 1 then some v else none

/-- Embedding of `helper.ToInt` (helper.go lines 22–35): a `string` goes
through `strconv.Atoi` and any error yields `0`; a `float64` is converted by
`int64(i)`; every other dynamic type falls through to `return 0`. -/
def ToInt : GoValue → Int
  | .VString s =>
    match goAtoi s with
    | some n => n
    | none => 0
  | .VFloat f => f.truncToInt
  | _ => 0

/-! ## `helper.ToString` (helper.go lines 11–18) -/

/-- Strip the trailing zeros of the fractional part of a decimal
`absMant * 10 ^ exp` (with `absMant` the absolute value of the mantissa):
while the exponent is negative and the mantissa non-zero and divisible by 10,
divide the mantissa by 10.  This is the normalisation performed by
`decimal.NewFromFloat`, which stores the shortest decimal that round-trips
through the `float64`. -/
def stripZeros (a : Nat) (e : Int) : Nat × Int :=
  if h : a ≠ 0 ∧ e < 0 ∧ a % 10 = 0 then stripZeros (a / 10) (e + 1)
  else (a, e)
  termination_by a
  decreasing_by exact Nat.div_lt_self (Nat.pos_of_ne_zero h.1) (by omega)

/-- Pad a digit list on the left with `'0'` up to width `k`. -/
def padZeros (k : Nat) (cs : List Char) : List Char :=
  List.replicate (k - cs.length) '0' ++ cs

/-- Render a (sign, absolute mantissa, exponent) decimal in plain notation, as
`decimal.Decimal.String` does: no exponent marker, no trailing fractional
zeros beyond the stored scale, a leading `0` before the decimal point when the
integer part is empty. -/
def decStr (neg : Bool) (a : Nat) (e : Int) : List Char :=
  if a = 0 then ['0']
  else
    let signChars : List Char := if neg then ['-'] else []
    if 0 ≤ e then signChars ++ natRepr (a * 10 ^ e.toNat)
    else
      let k := (-e).toNat
      signChars ++ natRepr (a / 10 ^ k) ++ '.' :: padZeros k (natRepr (a % 10 ^ k))

/-- Embedding of `decimal.NewFromFloat(f).String()` on the modelled numerals:
normalise away trailing fractional zeros, then render in plain decimal
notation. -/
def decimalString (f : GoFloat) : String :=
  let p := stripZeros f.mant.natAbs f.exp
  String.mk (decStr (f.mant < 0) p.1 p.2)

/-- Embedding of Go's `fmt.Sprintf("%v", s)` on the modelled value shapes.
(The `float64` case is unreachable from `ToString`, whose `switch` consumes
floats first; `%v` on a float also prints the shortest round-trip decimal, so
the same rendering is used.) -/
def goDefaultFormat : GoValue → String
  | .VString s => s
  | .VInt n => String.mk (intRepr n)
  | .VBool b => if b then "true" else "false"
  | .VFloat f => decimalString f

/-- Embedding of `helper.ToString` (helper.go lines 11–18): a `float64` is
rendered through `decimal.NewFromFloat(...).String()`; every other dynamic
type through `fmt.Sprintf("%v", s)`. -/
def ToString : GoValue → String
  | .VFloat f => decimalString f
  | v => goDefaultFormat v

end helper

/-- A reference reading of plain decimal strings: an optional minus sign, a
non-empty digit run, optionally followed by `'.'` and a non-empty digit run.
Used to state that `ToString`'s rendering denotes its input exactly. -/
def parseDecimalString (s : String) : Option ℚ :=
  let cs := s.toList
  let signed : ℚ × List Char :=
    match cs with
    | [] => (1, [])
    | c :: r => if c = '-' then (-1, r) else (1, c :: r)
  let ip := signed.2.takeWhile (fun c => c ≠ '.')
  let rest := signed.2.dropWhile (fun c => c ≠ '.')
  match parseDigits ip, rest with
  | some n, [] => some (signed.1 * n)
  | some n, _ :: fp =>
    match parseDigits fp with
    | some m => some (signed.1 * ((n : ℚ) + (m : ℚ) / (10 : ℚ) ^ fp.length))
    | none => none
  | none, _ => none

/-! ## The `mongodb` package (mongodb.go)

Contexts, errors, documents, query options, the `buildOptions` translation,
and the `MongodbStorage` facade.  The facade is parameterised by a `Client`
record of response functions standing for the external MongoDB driver, and
every operation returns, besides its result, the list of client calls it
issued (its trace) and the client's final state. -/

/-- A Go `context.Context` as built by this repository: the background context
or a `context.WithTimeout` derivation (seconds).  `NewMongo` also runs
`defer cancel()` on its derived context, so the stored context is already
cancelled once construction returns; the claims under verification concern
only which context each call receives, so cancellation state is not carried
here. -/
inductive GoCtx where
  | background : GoCtx
  | withTimeout (parent : GoCtx) (seconds : Nat) : GoCtx
  deriving DecidableEq, Repr

/-- Errors visible through the facade: `errors.New` strings (the facade's own
empty-delete-filter rejection), the driver's `ErrNoDocuments`, decode errors,
and any other driver/server error. -/
inductive GoError where
  | errorString (msg : String) : GoError
  | errNoDocuments : GoError
  | decodeError (msg : String) : GoError
  | serverError (msg : String) : GoError
  deriving DecidableEq, Repr

/-- A document / filter: a `map[string]any`, modelled as an association list
(a Go map has no duplicate keys; nothing below depends on key order except
where the claims are about that very question). -/
abbrev Doc := List (String × GoValue)

/-- The fields of `options.FindOptions` set by this repository. -/
structure FindOptions where
  sort : Option GoValue
  skip : Option Int
  limit : Option Int
  deriving DecidableEq, Repr

/-- The fields of `options.FindOneOptions` set by this repository; the
driver's single-document option struct has no limit field. -/
structure FindOneOptions where
  sort : Option GoValue
  skip : Option Int
  deriving DecidableEq, Repr

/-- ASCII case mapping of a single character, as `strings.ToLower` performs on
the ASCII keys that occur here. -/
def goCharToLower (c : Char) : Char :=
  if 65 ≤ c.toNat ∧ c.toNat ≤ 90 then Char.ofNat (c.toNat + 32) else c

/-- Embedding of Go's `strings.ToLower`, restricted to ASCII case mapping
(faithful for every key the recognized set can match). -/
def goToLower (s : String) : String :=
  String.mk (s.toList.map goCharToLower)

/-- One iteration of the `for k, v := range opts` loop of `buildOptions`
(mongodb.go lines 137–148): switch on `strings.ToLower(k)`; `sort` is set on
both option structs, `limit` only on the multi-document struct, `skip` on
both, and any other key falls through the switch unchanged. -/
def buildOptionsStep (acc : FindOptions × FindOneOptions) (kv : String × GoValue) :
    FindOptions × FindOneOptions :=
  let k := goToLower kv.1
  if k = "sort" then
    ({ acc.1 with sort := some kv.2 }, { acc.2 with sort := some kv.2 })
  else if k = "limit" then
    ({ acc.1 with limit := some (helper.ToInt kv.2) }, acc.2)
  else if k = "skip" then
    ({ acc.1 with skip := some (helper.ToInt kv.2) },
     { acc.2 with skip := some (helper.ToInt kv.2) })
  else acc

/-- Embedding of `buildOptions` (mongodb.go lines 136–150), as a fold over the
map's entries in some iteration order (Go map iteration order is
unspecified; the entry list stands for one such order). -/
def buildOptions (opts : List (String × GoValue)) : FindOptions × FindOneOptions :=
  opts.foldl buildOptionsStep (⟨none, none, none⟩, ⟨none, none⟩)

/-- The update document passed to the driver's `UpdateOne`: either a `$set`
wrapper (what `Upsert` builds with `bson.M`) or a plain replacement
document. -/
inductive UpdateDoc where
  | set (d : Doc) : UpdateDoc
  | replace (d : Doc) : UpdateDoc
  deriving DecidableEq, Repr

/-- The driver's `mongo.UpdateResult`. -/
structure UpdateResult where
  matchedCount : Nat
  modifiedCount : Nat
  upsertedCount : Nat
  upsertedId : Option GoValue
  deriving DecidableEq, Repr

/-- One call from the facade into the external client, recording the context
it was given and its arguments. -/
inductive ClientCall where
  | connect (ctx : GoCtx) (uri : String) : ClientCall
  | ping (ctx : GoCtx) : ClientCall
  | findOne (ctx : GoCtx) (coll : String) (filter : Doc) (opts : FindOneOptions) : ClientCall
  | find (ctx : GoCtx) (coll : String) (filter : Doc) (opts : FindOptions) : ClientCall
  | cursorAll (ctx : GoCtx) : ClientCall
  | cursorClose (ctx : GoCtx) : ClientCall
  | insertOne (ctx : GoCtx) (coll : String) (data : Doc) : ClientCall
  | insertMany (ctx : GoCtx) (coll : String) (datas : List Doc) : ClientCall
  | updateOne (ctx : GoCtx) (coll : String) (filter : Doc) (update : UpdateDoc)
      (upsert : Bool) : ClientCall
  | deleteMany (ctx : GoCtx) (coll : String) (filter : Doc) : ClientCall
  deriving DecidableEq, Repr

/-- The context a client call was issued under. -/
def ClientCall.ctxOf : ClientCall → GoCtx
  | .connect ctx _ => ctx
  | .ping ctx => ctx
  | .findOne ctx _ _ _ => ctx
  | .find ctx _ _ _ => ctx
  | .cursorAll ctx => ctx
  | .cursorClose ctx => ctx
  | .insertOne ctx _ _ => ctx
  | .insertMany ctx _ _ => ctx
  | .updateOne ctx _ _ _ _ => ctx
  | .deleteMany ctx _ _ => ctx

/-- The external MongoDB client, as the facade consumes it: one response
function per driver operation, over an abstract client state `σ`.  `find`
returns the cursor's eventual contents as the cursor handle; `cursorAll`
decodes a cursor into the caller's result; `cursorClose` may itself fail (the
driver's `Cursor.Close` returns an error). -/
structure Client (σ : Type) where
  connect : GoCtx → String → σ → Except GoError Unit × σ
  ping : GoCtx → σ → Except GoError Unit × σ
  findOne : GoCtx → String → Doc → FindOneOptions → σ → Except GoError Doc × σ
  find : GoCtx → String → Doc → FindOptions → σ → Except GoError (List Doc) × σ
  cursorAll : GoCtx → List Doc → σ → Except GoError (List Doc) × σ
  cursorClose : GoCtx → σ → Except GoError Unit × σ
  insertOne : GoCtx → String → Doc → σ → Except GoError GoValue × σ
  insertMany : GoCtx → String → List Doc → σ → Except GoError (List GoValue) × σ
  updateOne : GoCtx → String → Doc → UpdateDoc → Bool → σ → Except GoError UpdateResult × σ
  deleteMany : GoCtx → String → Doc → σ → Except GoError Nat × σ

/-- The facade's state: the construction-time context and the database
handle.  (mongodb.go lines 29–33.) -/
structure MongodbStorage where
  ctx : GoCtx
  databaseName : String
  deriving DecidableEq, Repr

/-- Embedding of `NewMongo` (mongodb.go lines 35–51): derive a 30-second
timeout context from the background context, connect under it, and store that
same context in the facade.  (`defer cancel()` cancels it as construction
returns; no other context is ever created.) -/
def NewMongo {σ : Type} (c : Client σ) (uri dbName : String) (s : σ) :
    Except GoError MongodbStorage × List ClientCall × σ :=
  let ctx := GoCtx.withTimeout GoCtx.background 30
  match c.connect ctx uri s with
  | (.error e, s') => (.error e, [.connect ctx uri], s')
  | (.ok _, s') => (.ok ⟨ctx, dbName⟩, [.connect ctx uri], s')

/-- Embedding of `HealthCheck` (mongodb.go lines 55–59): ping under the stored
context and return the ping's outcome unchanged. -/
def MongodbStorage.HealthCheck {σ : Type} (m : MongodbStorage) (c : Client σ) (s : σ) :
    Except GoError Unit × List ClientCall × σ :=
  match c.ping m.ctx s with
  | (r, s') => (r, [.ping m.ctx], s')

/-- Embedding of `InsertOne` (mongodb.go lines 63–66): pass the data to the
collection's `InsertOne` under the stored context, returning its result
unchanged. -/
def MongodbStorage.InsertOne {σ : Type} (m : MongodbStorage) (c : Client σ)
    (collectionName : String) (data : Doc) (s : σ) :
    Except GoError GoValue × List ClientCall × σ :=
  match c.insertOne m.ctx collectionName data s with
  | (r, s') => (r, [.insertOne m.ctx collectionName data], s')

/-- Embedding of `InsertMany` (mongodb.go lines 70–73). -/
def MongodbStorage.InsertMany {σ : Type} (m : MongodbStorage) (c : Client σ)
    (collectionName : String) (datas : List Doc) (s : σ) :
    Except GoError (List GoValue) × List ClientCall × σ :=
  match c.insertMany m.ctx collectionName datas s with
  | (r, s') => (r, [.insertMany m.ctx collectionName datas], s')

/-- Embedding of `Upsert` (mongodb.go lines 77–81): a single `UpdateOne` with
the update document `bson.M` of `$set` to `data` and the upsert flag set. -/
def MongodbStorage.Upsert {σ : Type} (m : MongodbStorage) (c : Client σ)
    (collectionName : String) (filter : Doc) (data : Doc) (s : σ) :
    Except GoError UpdateResult × List ClientCall × σ :=
  match c.updateOne m.ctx collectionName filter (UpdateDoc.set data) true s with
  | (r, s') => (r, [.updateOne m.ctx collectionName filter (UpdateDoc.set data) true], s')

/-- Embedding of `FindOne` (mongodb.go lines 85–94): build the
single-document options from the option map, run the driver's
`FindOne(...).Decode(result)` (one combined client response), and return its
error, if any, unchanged. -/
def MongodbStorage.FindOne {σ : Type} (m : MongodbStorage) (c : Client σ)
    (collectionName : String) (filter : Doc) (opts : List (String × GoValue)) (s : σ) :
    Except GoError Doc × List ClientCall × σ :=
  let findOneOpt := (buildOptions opts).2
  match c.findOne m.ctx collectionName filter findOneOpt s with
  | (.error e, s') => (.error e, [.findOne m.ctx collectionName filter findOneOpt], s')
  | (.ok doc, s') => (.ok doc, [.findOne m.ctx collectionName filter findOneOpt], s')

/-- Embedding of `FindMany` (mongodb.go lines 98–118): build the
multi-document options, open the cursor with `Find`; on success drain it with
`cursor.All`; if the drain fails, return that error at once (the explicit
close below is not reached); on success, close the cursor (a successfully
opened cursor is never nil, and the error returned by `Close` is discarded)
and return the drained documents. -/
def MongodbStorage.FindMany {σ : Type} (m : MongodbStorage) (c : Client σ)
    (collectionName : String) (filter : Doc) (opts : List (String × GoValue)) (s : σ) :
    Except GoError (List Doc) × List ClientCall × σ :=
  let findOpt := (buildOptions opts).1
  match c.find m.ctx collectionName filter findOpt s with
  | (.error e, s') => (.error e, [.find m.ctx collectionName filter findOpt], s')
  | (.ok cursor, s') =>
    match c.cursorAll m.ctx cursor s' with
    | (.error e, s2) =>
      (.error e, [.find m.ctx collectionName filter findOpt, .cursorAll m.ctx], s2)
    | (.ok docs, s2) =>
      match c.cursorClose m.ctx s2 with
      | (_, s3) =>
        (.ok docs,
         [.find m.ctx collectionName filter findOpt, .cursorAll m.ctx, .cursorClose m.ctx],
         s3)

/-- Embedding of `Delete` (mongodb.go lines 122–134): an empty filter is
rejected with `errors.New("filter cannot be empty")` before any client
contact; otherwise `DeleteMany` runs under the stored context, its error (if
any) is returned unchanged, and its deleted count is discarded. -/
def MongodbStorage.Delete {σ : Type} (m : MongodbStorage) (c : Client σ)
    (collectionName : String) (filter : Doc) (s : σ) :
    Except GoError Unit × List ClientCall × σ :=
  if filter.length = 0 then
    (.error (GoError.errorString "filter cannot be empty"), [], s)
  else
    match c.deleteMany m.ctx collectionName filter s with
    | (.error e, s') => (.error e, [.deleteMany m.ctx collectionName filter], s')
    | (.ok _, s') => (.ok (), [.deleteMany m.ctx collectionName filter], s')

/-! ## Clients: the fixed-response oracle and the reference document store -/

/-- A fixed response for every client operation; `oracleClient` turns this
into a stateless `Client` so that theorems can quantify over arbitrary client
outcomes. -/
structure OracleResponses where
  connectR : Except GoError Unit
  pingR : Except GoError Unit
  findOneR : Except GoError Doc
  findR : Except GoError (List Doc)
  cursorAllR : Except GoError (List Doc)
  cursorCloseR : Except GoError Unit
  insertOneR : Except GoError GoValue
  insertManyR : Except GoError (List GoValue)
  updateOneR : Except GoError UpdateResult
  deleteManyR : Except GoError Nat

/-- The stateless client that answers every operation with the given fixed
response. -/
def oracleClient (r : OracleResponses) : Client Unit where
  connect := fun _ _ s => (r.connectR, s)
  ping := fun _ s => (r.pingR, s)
  findOne := fun _ _ _ _ s => (r.findOneR, s)
  find := fun _ _ _ _ s => (r.findR, s)
  cursorAll := fun _ _ s => (r.cursorAllR, s)
  cursorClose := fun _ s => (r.cursorCloseR, s)
  insertOne := fun _ _ _ s => (r.insertOneR, s)
  insertMany := fun _ _ _ s => (r.insertManyR, s)
  updateOne := fun _ _ _ _ _ s => (r.updateOneR, s)
  deleteMany := fun _ _ _ s => (r.deleteManyR, s)

/-- The all-success oracle responses with empty payloads, used as a base
point for concrete instances. -/
def okResponses : OracleResponses where
  connectR := .ok ()
  pingR := .ok ()
  findOneR := .ok []
  findR := .ok []
  cursorAllR := .ok []
  cursorCloseR := .ok ()
  insertOneR := .ok (.VInt 0)
  insertManyR := .ok []
  updateOneR := .ok ⟨1, 1, 0, none⟩
  deleteManyR := .ok 0

/-- Field lookup in a document. -/
def docGet : Doc → String → Option GoValue
  | [], _ => none
  | kv :: rest, k => if kv.1 = k then some kv.2 else docGet rest k

/-- Set one field of a document: replace the existing binding or append a new
one. -/
def docSetField : Doc → String → GoValue → Doc
  | [], k, v => [(k, v)]
  | kv :: rest, k, v => if kv.1 = k then (k, v) :: rest else kv :: docSetField rest k v

/-- Apply a `$set` update document field by field. -/
def docApplySet (d : Doc) : Doc → Doc
  | [] => d
  | kv :: rest => docApplySet (docSetField d kv.1 kv.2) rest

/-- Modelled from the spec: whether a stored `(identifier, document)` pair
satisfies a field-equality filter — "Filter: a mapping from field name to
match criteria"; the reserved key `_id` matches the document's identifier. -/
def filterMatches (filter : Doc) (iddoc : GoValue × Doc) : Bool :=
  filter.all
    (fun kv =>
      if kv.1 = "_id" then decide (iddoc.1 = kv.2)
      else decide (docGet iddoc.2 kv.1 = some kv.2))

/-- The store of the reference client: a generated-identifier counter and the
stored `(identifier, document)` pairs, in insertion order. -/
structure MongoStore where
  nextId : Nat
  docs : List (GoValue × Doc)
  deriving DecidableEq, Repr

/-- The identifier the reference store generates next. -/
def genId (st : MongoStore) : GoValue :=
  .VInt st.nextId

/-- Apply a `$set` update to the first document matching the filter, if
any. -/
def updateFirstMatch (filter upd : Doc) : List (GoValue × Doc) → Option (List (GoValue × Doc))
  | [] => none
  | d :: rest =>
    if filterMatches filter d then some ((d.1, docApplySet d.2 upd) :: rest)
    else (updateFirstMatch filter upd rest).map (d :: ·)

/-- Replace the first document matching the filter wholesale, if any (the
behaviour a plain replacement update document would select — contrast with
`updateFirstMatch`). -/
def replaceFirstMatch (filter newDoc : Doc) : List (GoValue × Doc) → Option (List (GoValue × Doc))
  | [] => none
  | d :: rest =>
    if filterMatches filter d then some ((d.1, newDoc) :: rest)
    else (replaceFirstMatch filter newDoc rest).map (d :: ·)

/-- The first stored pair matching a filter, if any. -/
def findFirstMatch (filter : Doc) : List (GoValue × Doc) → Option (GoValue × Doc)
  | [] => none
  | d :: rest => if filterMatches filter d then some d else findFirstMatch filter rest

/-- Modelled from the spec: the external database client collaborator (spec
§6), "collection handles supporting find, find-one, insert-one, insert-many,
update-one-with-upsert, delete-many, and ping".  Documents are stored
verbatim in insertion order; insertion returns a generated identifier;
find-one misses are the driver's `ErrNoDocuments`; update-one with a `$set`
document merges field by field into the first match, and with the upsert flag
inserts the combination of filter-implied and provided fields when nothing
matches; delete-many removes every match and reports how many.  Query options
are not interpreted by this reference model (the claims proved against it
pass none). -/
def storeClient : Client MongoStore where
  connect := fun _ _ st => (.ok (), st)
  ping := fun _ st => (.ok (), st)
  findOne := fun _ _ filter _ st =>
    match findFirstMatch filter st.docs with
    | some iddoc => (.ok iddoc.2, st)
    | none => (.error .errNoDocuments, st)
  find := fun _ _ filter _ st =>
    (.ok ((st.docs.filter (filterMatches filter)).map Prod.snd), st)
  cursorAll := fun _ docs st => (.ok docs, st)
  cursorClose := fun _ st => (.ok (), st)
  insertOne := fun _ _ data st =>
    (.ok (genId st), ⟨st.nextId + 1, st.docs ++ [(genId st, data)]⟩)
  insertMany := fun _ _ datas st =>
    let res := datas.foldl
      (fun (acc : List GoValue × MongoStore) d =>
        (acc.1 ++ [genId acc.2], ⟨acc.2.nextId + 1, acc.2.docs ++ [(genId acc.2, d)]⟩))
      ([], st)
    (.ok res.1, res.2)
  updateOne := fun _ _ filter upd upsert st =>
    match upd with
    | .set d =>
      match updateFirstMatch filter d st.docs with
      | some docs' => (.ok ⟨1, 1, 0, none⟩, ⟨st.nextId, docs'⟩)
      | none =>
        if upsert then
          (.ok ⟨0, 0, 1, some (genId st)⟩,
           ⟨st.nextId + 1, st.docs ++ [(genId st, docApplySet filter d)]⟩)
        else (.ok ⟨0, 0, 0, none⟩, st)
    | .replace d =>
      match replaceFirstMatch filter d st.docs with
      | some docs' => (.ok ⟨1, 1, 0, none⟩, ⟨st.nextId, docs'⟩)
      | none =>
        if upsert then
          (.ok ⟨0, 0, 1, some (genId st)⟩,
           ⟨st.nextId + 1, st.docs ++ [(genId st, docApplySet filter d)]⟩)
        else (.ok ⟨0, 0, 0, none⟩, st)
  deleteMany := fun _ _ filter st =>
    ((.ok (st.docs.filter (filterMatches filter)).length),
     ⟨st.nextId, st.docs.filter (fun d => ! filterMatches filter d)⟩)

/-! ## Claims -/

/-- C1: `Delete` fails with the `InvalidArgument` error
(`errors.New("filter cannot be empty")`) for every empty filter, issuing no
client call and leaving the client state untouched; for every non-empty
filter it issues exactly one `DeleteMany` and reports success whatever the
deleted count was, and against the reference store it removes exactly the
matching documents. -/
theorem delete_empty_rejected_nonempty_removes_all
    {σ : Type} (c : Client σ) (m : MongodbStorage) (coll : String)
    (filter : Doc) (s : σ) :
    (filter = [] →
      MongodbStorage.Delete m c coll filter s
        = (.error (GoError.errorString "filter cannot be empty"), [], s)) ∧
    (filter ≠ [] →
      (∀ n s', c.deleteMany m.ctx coll filter s = (.ok n, s') →
        MongodbStorage.Delete m c coll filter s
          = (.ok (), [.deleteMany m.ctx coll filter], s')) ∧
      (∀ st : MongoStore,
        (MongodbStorage.Delete m storeClient coll filter st).1 = .ok () ∧
        (MongodbStorage.Delete m storeClient coll filter st).2.2
          = ⟨st.nextId, st.docs.filter (fun d => ! filterMatches filter d)⟩)) := by
  constructor
  · intro h
    subst h
    simp [MongodbStorage.Delete]
  · intro hne
    have hlen : filter.length ≠ 0 := by
      simpa [List.length_eq_zero] using hne
    constructor
    · intro n s' hresp
      simp [MongodbStorage.Delete, hlen, hresp]
    · intro st
      constructor <;> simp [MongodbStorage.Delete, hlen, storeClient]

/-- Witness for C1 at concrete inputs: the empty filter is rejected without
client contact, and a concrete two-document store loses exactly its one
matching document. -/
theorem delete_empty_rejected_nonempty_removes_all_witness :
    (MongodbStorage.Delete ⟨GoCtx.background, "db"⟩ (oracleClient okResponses) "c" [] ()
      = (.error (GoError.errorString "filter cannot be empty"), [], ())) ∧
    (MongodbStorage.Delete ⟨GoCtx.background, "db"⟩ (oracleClient okResponses) "c"
        [("a", .VInt 1)] ()
      = (.ok (), [.deleteMany GoCtx.background "c" [("a", .VInt 1)]], ())) ∧
    ((MongodbStorage.Delete ⟨GoCtx.background, "db"⟩ storeClient "c" [("a", .VInt 1)]
        ⟨2, [(.VInt 0, [("a", .VInt 1)]), (.VInt 1, [("b", .VInt 2)])]⟩).2.2
      = ⟨2, [(.VInt 1, [("b", .VInt 2)])]⟩) := by
  refine ⟨?_, ?_, ?_⟩
  · exact (delete_empty_rejected_nonempty_removes_all (oracleClient okResponses)
      ⟨GoCtx.background, "db"⟩ "c" [] ()).1 rfl
  · exact ((delete_empty_rejected_nonempty_removes_all (oracleClient okResponses)
      ⟨GoCtx.background, "db"⟩ "c" [("a", .VInt 1)] ()).2 (by decide)).1 0 () rfl
  · have h := ((delete_empty_rejected_nonempty_removes_all (oracleClient okResponses)
      ⟨GoCtx.background, "db"⟩ "c" [("a", .VInt 1)] ()).2 (by decide)).2
      ⟨2, [(.VInt 0, [("a", .VInt 1)]), (.VInt 1, [("b", .VInt 2)])]⟩
    simpa using h.2

/-- C4: the 30-second timeout context is created once, at construction, and
passed to `Connect`; the storage keeps exactly that context; and every
operation passes the stored construction-time context — never a freshly
derived per-call context — to each client call it makes, for every client
behaviour.  (The facade contains no other call to `context.WithTimeout` or
`context.WithCancel`, so no call carries a per-call deadline.) -/
theorem operations_use_single_construction_context
    {σ : Type} (c : Client σ) (m : MongodbStorage) (coll uri dbName : String)
    (filter data : Doc) (datas : List Doc) (opts : List (String × GoValue)) (s : σ) :
    ((NewMongo c uri dbName s).2.1
      = [.connect (GoCtx.withTimeout .background 30) uri]) ∧
    (∀ st, (NewMongo c uri dbName s).1 = .ok st →
      st.ctx = GoCtx.withTimeout .background 30) ∧
    (∀ call ∈ (m.HealthCheck c s).2.1, call.ctxOf = m.ctx) ∧
    (∀ call ∈ (m.FindOne c coll filter opts s).2.1, call.ctxOf = m.ctx) ∧
    (∀ call ∈ (m.FindMany c coll filter opts s).2.1, call.ctxOf = m.ctx) ∧
    (∀ call ∈ (m.InsertOne c coll data s).2.1, call.ctxOf = m.ctx) ∧
    (∀ call ∈ (m.InsertMany c coll datas s).2.1, call.ctxOf = m.ctx) ∧
    (∀ call ∈ (m.Upsert c coll filter data s).2.1, call.ctxOf = m.ctx) ∧
    (∀ call ∈ (m.Delete c coll filter s).2.1, call.ctxOf = m.ctx) := by
  refine ⟨?_, ?_, ?_, ?_, ?_, ?_, ?_, ?_, ?_⟩
  · unfold NewMongo
    rcases h : c.connect (GoCtx.withTimeout .background 30) uri s with ⟨r, s'⟩
    cases r <;> simp [h]
  · intro st hst
    unfold NewMongo at hst
    rcases h : c.connect (GoCtx.withTimeout .background 30) uri s with ⟨r, s'⟩
    cases r <;> simp [h] at hst
    simp [← hst]
  · unfold MongodbStorage.HealthCheck
    rcases c.ping m.ctx s with ⟨r, s'⟩
    simp [ClientCall.ctxOf]
  · unfold MongodbStorage.FindOne
    rcases h : c.findOne m.ctx coll filter (buildOptions opts).2 s with ⟨r, s'⟩
    cases r <;> simp [h, ClientCall.ctxOf]
  · unfold MongodbStorage.FindMany
    rcases h : c.find m.ctx coll filter (buildOptions opts).1 s with ⟨r, s'⟩
    cases r with
    | error e => simp [h, ClientCall.ctxOf]
    | ok cur =>
      rcases h2 : c.cursorAll m.ctx cur s' with ⟨r2, s2⟩
      cases r2 with
      | error e => simp [h, h2, ClientCall.ctxOf]
      | ok docs =>
        rcases h3 : c.cursorClose m.ctx s2 with ⟨r3, s3⟩
        simp [h, h2, h3, ClientCall.ctxOf]
  · unfold MongodbStorage.InsertOne
    rcases c.insertOne m.ctx coll data s with ⟨r, s'⟩
    simp [ClientCall.ctxOf]
  · unfold MongodbStorage.InsertMany
    rcases c.insertMany m.ctx coll datas s with ⟨r, s'⟩
    simp [ClientCall.ctxOf]
  · unfold MongodbStorage.Upsert
    rcases c.updateOne m.ctx coll filter (UpdateDoc.set data) true s with ⟨r, s'⟩
    simp [ClientCall.ctxOf]
  · unfold MongodbStorage.Delete
    by_cases hlen : filter.length = 0
    · simp [hlen]
    · rcases h : c.deleteMany m.ctx coll filter s with ⟨r, s'⟩
      cases r <;> simp [hlen, h, ClientCall.ctxOf]

/-- Witness for C4 at concrete inputs: the construction trace, the stored
context, and the context of each concrete call issued by `HealthCheck` and
`FindMany`. -/
theorem operations_use_single_construction_context_witness :
    ((NewMongo (oracleClient okResponses) "mongodb-uri" "db" ()).2.1
      = [.connect (GoCtx.withTimeout .background 30) "mongodb-uri"]) ∧
    (MongodbStorage.ctx ⟨GoCtx.withTimeout .background 30, "db"⟩
      = GoCtx.withTimeout .background 30) ∧
    (ClientCall.ctxOf (.ping (GoCtx.withTimeout .background 30))
      = GoCtx.withTimeout .background 30) ∧
    (ClientCall.ctxOf (.cursorClose (GoCtx.withTimeout .background 30))
      = GoCtx.withTimeout .background 30) := by
  have h := operations_use_single_construction_context (oracleClient okResponses)
    ⟨GoCtx.withTimeout .background 30, "db"⟩ "c" "mongodb-uri" "db" [] [] [] [] ()
  refine ⟨h.1, ?_, ?_, ?_⟩
  · exact h.2.1 ⟨GoCtx.withTimeout .background 30, "db"⟩ (by rfl)
  · exact h.2.2.1 (.ping (GoCtx.withTimeout .background 30)) (by decide)
  · exact h.2.2.2.2.1 (.cursorClose (GoCtx.withTimeout .background 30)) (by decide)

/-- C3 counterexample: with a client whose `Find` succeeds and whose
`cursor.All` fails, `FindMany` returns the drain error, but its trace
contains no cursor `Close` — the cursor was successfully opened, the call
failed, and the facade did not explicitly close the cursor before returning
(mongodb.go lines 107–110 return ahead of the close at lines 113–115). -/
theorem findMany_drain_failure_skips_close_cex :
    ((MongodbStorage.FindMany ⟨GoCtx.background, "db"⟩
        (oracleClient { okResponses with cursorAllR := .error (.decodeError "bad") })
        "c" [] [] ()).1 = .error (.decodeError "bad")) ∧
    ((MongodbStorage.FindMany ⟨GoCtx.background, "db"⟩
        (oracleClient { okResponses with cursorAllR := .error (.decodeError "bad") })
        "c" [] [] ()).2.1
      = [.find GoCtx.background "c" [] ⟨none, none, none⟩, .cursorAll GoCtx.background]) ∧
    (∀ call ∈ (MongodbStorage.FindMany ⟨GoCtx.background, "db"⟩
        (oracleClient { okResponses with cursorAllR := .error (.decodeError "bad") })
        "c" [] [] ()).2.1, ∀ ctx, call ≠ ClientCall.cursorClose ctx) := by
  refine ⟨rfl, rfl, ?_⟩
  intro call hcall ctx
  fin_cases hcall <;> simp

/-- C3 amended: `FindMany` opens the cursor, drains it, and explicitly closes
it on the success path only; when opening fails no cursor operation occurs,
and when draining fails the error is returned at once without an explicit
close by the facade. -/
theorem findMany_cursor_lifecycle
    {σ : Type} (c : Client σ) (m : MongodbStorage) (coll : String) (filter : Doc)
    (opts : List (String × GoValue)) (s : σ) :
    (∀ e s', c.find m.ctx coll filter (buildOptions opts).1 s = (.error e, s') →
      MongodbStorage.FindMany m c coll filter opts s
        = (.error e, [.find m.ctx coll filter (buildOptions opts).1], s')) ∧
    (∀ cur s' e s2, c.find m.ctx coll filter (buildOptions opts).1 s = (.ok cur, s') →
      c.cursorAll m.ctx cur s' = (.error e, s2) →
      MongodbStorage.FindMany m c coll filter opts s
        = (.error e,
           [.find m.ctx coll filter (buildOptions opts).1, .cursorAll m.ctx], s2)) ∧
    (∀ cur s' docs s2 r s3, c.find m.ctx coll filter (buildOptions opts).1 s = (.ok cur, s') →
      c.cursorAll m.ctx cur s' = (.ok docs, s2) →
      c.cursorClose m.ctx s2 = (r, s3) →
      MongodbStorage.FindMany m c coll filter opts s
        = (.ok docs,
           [.find m.ctx coll filter (buildOptions opts).1, .cursorAll m.ctx,
            .cursorClose m.ctx], s3)) := by
  refine ⟨?_, ?_, ?_⟩
  · intro e s' h
    simp [MongodbStorage.FindMany, h]
  · intro cur s' e s2 h h2
    simp [MongodbStorage.FindMany, h, h2]
  · intro cur s' docs s2 r s3 h h2 h3
    simp [MongodbStorage.FindMany, h, h2, h3]

/-- Witness for the amended C3 at concrete inputs: one concrete run per path
shape (open failure, drain failure, full success with explicit close). -/
theorem findMany_cursor_lifecycle_witness :
    (MongodbStorage.FindMany ⟨GoCtx.background, "db"⟩
        (oracleClient { okResponses with findR := .error (.serverError "down") }) "c" [] [] ()
      = (.error (.serverError "down"),
         [.find GoCtx.background "c" [] ⟨none, none, none⟩], ())) ∧
    (MongodbStorage.FindMany ⟨GoCtx.background, "db"⟩
        (oracleClient { okResponses with cursorAllR := .error (.decodeError "bad") })
        "c" [] [] ()
      = (.error (.decodeError "bad"),
         [.find GoCtx.background "c" [] ⟨none, none, none⟩, .cursorAll GoCtx.background],
         ())) ∧
    (MongodbStorage.FindMany ⟨GoCtx.background, "db"⟩ (oracleClient okResponses) "c" [] [] ()
      = (.ok [],
         [.find GoCtx.background "c" [] ⟨none, none, none⟩, .cursorAll GoCtx.background,
          .cursorClose GoCtx.background], ())) := by
  refine ⟨?_, ?_, ?_⟩
  · exact (findMany_cursor_lifecycle
      (oracleClient { okResponses with findR := .error (.serverError "down") })
      ⟨GoCtx.background, "db"⟩ "c" [] [] ()).1 (.serverError "down") () rfl
  · exact (findMany_cursor_lifecycle
      (oracleClient { okResponses with cursorAllR := .error (.decodeError "bad") })
      ⟨GoCtx.background, "db"⟩ "c" [] [] ()).2.1 [] () (.decodeError "bad") () rfl rfl
  · exact (findMany_cursor_lifecycle (oracleClient okResponses)
      ⟨GoCtx.background, "db"⟩ "c" [] [] ()).2.2 [] () [] () (.ok ()) () rfl rfl rfl

/-- C8 counterexample: on `FindMany`'s success path the underlying client's
cursor `Close` returns an error, yet the facade reports success — so not
every error returned by the underlying client is propagated to the caller
(mongodb.go line 114 discards the result of `cursor.Close`). -/
theorem close_error_swallowed_cex :
    ((oracleClient { okResponses with cursorCloseR := .error (.serverError "close failed")
        }).cursorClose GoCtx.background () = (.error (.serverError "close failed"), ())) ∧
    ((MongodbStorage.FindMany ⟨GoCtx.background, "db"⟩
        (oracleClient { okResponses with cursorCloseR := .error (.serverError "close failed") })
        "c" [] [] ()).1 = .ok []) := by
  exact ⟨rfl, rfl⟩

/-- C8 amended: every error returned by the underlying client is propagated
unchanged to the caller — `FindOne` in particular surfaces the client's
not-found and decode errors verbatim — except the error of the cursor
`Close` issued on `FindMany`'s success path, which is discarded; the only
error produced by the facade itself is the empty-delete-filter rejection,
raised before the client is reached; and there are no retries: no operation
ever issues the same client call twice. -/
theorem client_errors_propagate_unchanged
    {σ : Type} (c : Client σ) (m : MongodbStorage) (coll : String)
    (filter data : Doc) (datas : List Doc) (opts : List (String × GoValue))
    (s : σ) (e : GoError) :
    (∀ s', c.ping m.ctx s = (.error e, s') → (m.HealthCheck c s).1 = .error e) ∧
    (∀ s', c.findOne m.ctx coll filter (buildOptions opts).2 s = (.error e, s') →
      (m.FindOne c coll filter opts s).1 = .error e) ∧
    (∀ s', c.find m.ctx coll filter (buildOptions opts).1 s = (.error e, s') →
      (m.FindMany c coll filter opts s).1 = .error e) ∧
    (∀ cur s' s2, c.find m.ctx coll filter (buildOptions opts).1 s = (.ok cur, s') →
      c.cursorAll m.ctx cur s' = (.error e, s2) →
      (m.FindMany c coll filter opts s).1 = .error e) ∧
    (∀ s', c.insertOne m.ctx coll data s = (.error e, s') →
      (m.InsertOne c coll data s).1 = .error e) ∧
    (∀ s', c.insertMany m.ctx coll datas s = (.error e, s') →
      (m.InsertMany c coll datas s).1 = .error e) ∧
    (∀ s', c.updateOne m.ctx coll filter (UpdateDoc.set data) true s = (.error e, s') →
      (m.Upsert c coll filter data s).1 = .error e) ∧
    (filter ≠ [] → ∀ s', c.deleteMany m.ctx coll filter s = (.error e, s') →
      (m.Delete c coll filter s).1 = .error e) ∧
    (m.Delete c coll [] s
      = (.error (GoError.errorString "filter cannot be empty"), [], s)) ∧
    ((m.HealthCheck c s).2.1.Nodup ∧ (m.FindOne c coll filter opts s).2.1.Nodup ∧
      (m.FindMany c coll filter opts s).2.1.Nodup ∧
      (m.InsertOne c coll data s).2.1.Nodup ∧
      (m.InsertMany c coll datas s).2.1.Nodup ∧
      (m.Upsert c coll filter data s).2.1.Nodup ∧
      (m.Delete c coll filter s).2.1.Nodup) := by
  refine ⟨?_, ?_, ?_, ?_, ?_, ?_, ?_, ?_, ?_, ?_, ?_, ?_, ?_, ?_, ?_, ?_⟩
  · intro s' h
    simp [MongodbStorage.HealthCheck, h]
  · intro s' h
    simp [MongodbStorage.FindOne, h]
  · intro s' h
    simp [MongodbStorage.FindMany, h]
  · intro cur s' s2 h h2
    simp [MongodbStorage.FindMany, h, h2]
  · intro s' h
    simp [MongodbStorage.InsertOne, h]
  · intro s' h
    simp [MongodbStorage.InsertMany, h]
  · intro s' h
    simp [MongodbStorage.Upsert, h]
  · intro hne s' h
    have hlen : filter.length ≠ 0 := by
      simpa [List.length_eq_zero] using hne
    simp [MongodbStorage.Delete, hlen, h]
  · simp [MongodbStorage.Delete]
  · unfold MongodbStorage.HealthCheck
    rcases c.ping m.ctx s with ⟨r, s'⟩
    simp
  · unfold MongodbStorage.FindOne
    rcases h : c.findOne m.ctx coll filter (buildOptions opts).2 s with ⟨r, s'⟩
    cases r <;> simp [h]
  · unfold MongodbStorage.FindMany
    rcases h : c.find m.ctx coll filter (buildOptions opts).1 s with ⟨r, s'⟩
    cases r with
    | error e' => simp [h]
    | ok cur =>
      rcases h2 : c.cursorAll m.ctx cur s' with ⟨r2, s2⟩
      cases r2 with
      | error e' => simp [h, h2]
      | ok docs =>
        rcases h3 : c.cursorClose m.ctx s2 with ⟨r3, s3⟩
        simp [h, h2, h3]
  · unfold MongodbStorage.InsertOne
    rcases c.insertOne m.ctx coll data s with ⟨r, s'⟩
    simp
  · unfold MongodbStorage.InsertMany
    rcases c.insertMany m.ctx coll datas s with ⟨r, s'⟩
    simp
  · unfold MongodbStorage.Upsert
    rcases c.updateOne m.ctx coll filter (UpdateDoc.set data) true s with ⟨r, s'⟩
    simp
  · unfold MongodbStorage.Delete
    by_cases hlen : filter.length = 0
    · simp [hlen]
    · rcases h : c.deleteMany m.ctx coll filter s with ⟨r, s'⟩
      cases r <;> simp [hlen, h]

/-- Witness for the amended C8 at concrete inputs: a ping failure surfaces
verbatim, `FindOne` surfaces the driver's not-found error and a decode error
verbatim, a non-empty `Delete` surfaces the client failure verbatim, and the
empty-filter `Delete` produces the facade's own rejection without client
contact. -/
theorem client_errors_propagate_unchanged_witness :
    ((MongodbStorage.HealthCheck ⟨GoCtx.background, "db"⟩
        (oracleClient { okResponses with pingR := .error (.serverError "down") }) ()).1
      = .error (.serverError "down")) ∧
    ((MongodbStorage.FindOne ⟨GoCtx.background, "db"⟩
        (oracleClient { okResponses with findOneR := .error .errNoDocuments }) "c" [] [] ()).1
      = .error .errNoDocuments) ∧
    ((MongodbStorage.FindOne ⟨GoCtx.background, "db"⟩
        (oracleClient { okResponses with findOneR := .error (.decodeError "shape") })
        "c" [] [] ()).1 = .error (.decodeError "shape")) ∧
    ((MongodbStorage.Delete ⟨GoCtx.background, "db"⟩
        (oracleClient { okResponses with deleteManyR := .error (.serverError "down") })
        "c" [("a", .VInt 1)] ()).1 = .error (.serverError "down")) ∧
    (MongodbStorage.Delete ⟨GoCtx.background, "db"⟩ (oracleClient okResponses) "c" [] ()
      = (.error (GoError.errorString "filter cannot be empty"), [], ())) := by
  refine ⟨?_, ?_, ?_, ?_, ?_⟩
  · exact (client_errors_propagate_unchanged
      (oracleClient { okResponses with pingR := .error (.serverError "down") })
      ⟨GoCtx.background, "db"⟩ "c" [] [] [] [] () (.serverError "down")).1 () rfl
  · exact (client_errors_propagate_unchanged
      (oracleClient { okResponses with findOneR := .error .errNoDocuments })
      ⟨GoCtx.background, "db"⟩ "c" [] [] [] [] () .errNoDocuments).2.1 () rfl
  · exact (client_errors_propagate_unchanged
      (oracleClient { okResponses with findOneR := .error (.decodeError "shape") })
      ⟨GoCtx.background, "db"⟩ "c" [] [] [] [] () (.decodeError "shape")).2.1 () rfl
  · exact (client_errors_propagate_unchanged
      (oracleClient { okResponses with deleteManyR := .error (.serverError "down") })
      ⟨GoCtx.background, "db"⟩ "c" [("a", .VInt 1)] [] [] [] () (.serverError "down")
      ).2.2.2.2.2.2.2.1 (by decide) () rfl
  · exact (client_errors_propagate_unchanged (oracleClient okResponses)
      ⟨GoCtx.background, "db"⟩ "c" [] [] [] [] () .errNoDocuments).2.2.2.2.2.2.2.2.1

/-- C2: option translation matches each key case-insensitively (two keys with
the same lowercase form have the same effect); a `sort` entry is applied
identically to both option forms; a `skip` entry is applied to both; a
`limit` entry is applied only to the multi-document form, leaving the
single-document options completely untouched; and an entry whose lowercase
key is none of the three recognized names leaves both option structs
unchanged. -/
theorem buildOptions_translation
    (fo : FindOptions) (foo : FindOneOptions) (k k' : String) (v : GoValue) :
    (goToLower k = goToLower k' →
      buildOptionsStep (fo, foo) (k, v) = buildOptionsStep (fo, foo) (k', v)) ∧
    (goToLower k = "sort" →
      buildOptionsStep (fo, foo) (k, v)
        = ({ fo with sort := some v }, { foo with sort := some v })) ∧
    (goToLower k = "skip" →
      buildOptionsStep (fo, foo) (k, v)
        = ({ fo with skip := some (helper.ToInt v) },
           { foo with skip := some (helper.ToInt v) })) ∧
    (goToLower k = "limit" →
      buildOptionsStep (fo, foo) (k, v)
        = ({ fo with limit := some (helper.ToInt v) }, foo)) ∧
    (goToLower k ≠ "sort" → goToLower k ≠ "skip" → goToLower k ≠ "limit" →
      buildOptionsStep (fo, foo) (k, v) = (fo, foo)) := by
  refine ⟨?_, ?_, ?_, ?_, ?_⟩
  · intro h
    simp only [buildOptionsStep, h]
  · intro h
    simp [buildOptionsStep, h]
  · intro h
    have h1 : goToLower k ≠ "sort" := by simp [h]
    have h2 : goToLower k ≠ "limit" := by simp [h]
    simp [buildOptionsStep, h, h1, h2]
  · intro h
    have h1 : goToLower k ≠ "sort" := by simp [h]
    simp [buildOptionsStep, h, h1]
  · intro h1 h2 h3
    simp [buildOptionsStep, h1, h2, h3]

/-- Witness for C2 at concrete inputs: `"SORT"` behaves as `"sort"` and sets
both sorts; `"Skip"` sets both skips; `"LIMIT"` sets only the multi-document
limit; `"order"` is ignored. -/
theorem buildOptions_translation_witness :
    (buildOptionsStep (⟨none, none, none⟩, ⟨none, none⟩) ("SORT", .VInt 1)
      = buildOptionsStep (⟨none, none, none⟩, ⟨none, none⟩) ("sort", .VInt 1)) ∧
    (buildOptionsStep (⟨none, none, none⟩, ⟨none, none⟩) ("SORT", .VInt 1)
      = (⟨some (.VInt 1), none, none⟩, ⟨some (.VInt 1), none⟩)) ∧
    (buildOptionsStep (⟨none, none, none⟩, ⟨none, none⟩) ("Skip", .VString "2")
      = (⟨none, some 2, none⟩, ⟨none, some 2⟩)) ∧
    (buildOptionsStep (⟨none, none, none⟩, ⟨none, none⟩) ("LIMIT", .VString "9")
      = (⟨none, none, some 9⟩, ⟨none, none⟩)) ∧
    (buildOptionsStep (⟨none, none, none⟩, ⟨none, none⟩) ("order", .VInt 1)
      = (⟨none, none, none⟩, ⟨none, none⟩)) := by
  refine ⟨?_, ?_, ?_, ?_, ?_⟩
  · exact (buildOptions_translation ⟨none, none, none⟩ ⟨none, none⟩ "SORT" "sort"
      (.VInt 1)).1 (by decide)
  · exact (buildOptions_translation ⟨none, none, none⟩ ⟨none, none⟩ "SORT" "x"
      (.VInt 1)).2.1 (by decide)
  · have h := (buildOptions_translation ⟨none, none, none⟩ ⟨none, none⟩ "Skip" "x"
      (.VString "2")).2.2.1 (by decide)
    simpa using h
  · have h := (buildOptions_translation ⟨none, none, none⟩ ⟨none, none⟩ "LIMIT" "x"
      (.VString "9")).2.2.2.1 (by decide)
    simpa using h
  · exact (buildOptions_translation ⟨none, none, none⟩ ⟨none, none⟩ "order" "x"
      (.VInt 1)).2.2.2.2 (by decide) (by decide) (by decide)

/-- Two option entries whose keys have different lowercase forms write to
disjoint option fields, so processing them in either order gives the same
option structs. -/
theorem buildOptionsStep_comm (x y : String × GoValue) (z : FindOptions × FindOneOptions)
    (h : goToLower x.1 ≠ goToLower y.1) :
    buildOptionsStep (buildOptionsStep z x) y = buildOptionsStep (buildOptionsStep z y) x := by
  obtain ⟨z1, z2⟩ := z
  by_cases hx1 : goToLower x.1 = "sort" <;>
    by_cases hy1 : goToLower y.1 = "sort" <;>
    by_cases hx2 : goToLower x.1 = "limit" <;>
    by_cases hy2 : goToLower y.1 = "limit" <;>
    by_cases hx3 : goToLower x.1 = "skip" <;>
    by_cases hy3 : goToLower y.1 = "skip" <;>
    simp_all [buildOptionsStep]

/-- C10: option translation is deterministic for every options map in which
no two keys share a lowercase form: any two visit orders of the same entries
produce identical multi-document and single-document option structs. -/
theorem buildOptions_order_independent
    (l1 l2 : List (String × GoValue)) (hperm : l1.Perm l2)
    (hnodup : (l1.map (fun kv => goToLower kv.1)).Nodup) :
    buildOptions l1 = buildOptions l2 := by
  unfold buildOptions
  refine hperm.foldl_eq' ?_ _
  intro x hx y hy z
  by_cases hxy : x = y
  · subst hxy
    rfl
  · have hkey : goToLower x.1 ≠ goToLower y.1 := by
      intro hk
      exact hxy (List.inj_on_of_nodup_map hnodup hx hy hk)
    exact buildOptionsStep_comm x y z hkey

/-- Witness for C10 at concrete inputs: visiting `Sort`, `LIMIT`, `skip` in
reversed order yields the same option structs. -/
theorem buildOptions_order_independent_witness :
    buildOptions [("Sort", .VInt 1), ("LIMIT", .VString "4"), ("skip", .VInt 2)]
      = buildOptions [("skip", .VInt 2), ("LIMIT", .VString "4"), ("Sort", .VInt 1)] := by
  exact buildOptions_order_independent
    [("Sort", .VInt 1), ("LIMIT", .VString "4"), ("skip", .VInt 2)]
    [("skip", .VInt 2), ("LIMIT", .VString "4"), ("Sort", .VInt 1)]
    (by decide) (by decide)

/-- Setting a field leaves lookups of every other field unchanged and makes
the set field's lookup return the new value. -/
theorem docGet_docSetField (d : Doc) (k : String) (v : GoValue) (k' : String) :
    docGet (docSetField d k v) k' = if k = k' then some v else docGet d k' := by
  induction d with
  | nil => simp [docSetField, docGet]
  | cons kv rest ih =>
    by_cases h1 : kv.1 = k
    · by_cases h2 : k = k' <;> simp [docSetField, docGet, h1, h2, ih]
    · by_cases h2 : kv.1 = k'
      · have h3 : k ≠ k' := fun hk => h1 (hk ▸ h2)
        simp [docSetField, docGet, h1, h2, h3, Ne.symm h3]
      · simp [docSetField, docGet, h1, h2, ih]

/-- A `$set` update does not touch fields it does not mention. -/
theorem docGet_docApplySet_not_mem (upd : Doc) (d : Doc) (k : String)
    (h : k ∉ upd.map Prod.fst) :
    docGet (docApplySet d upd) k = docGet d k := by
  induction upd generalizing d with
  | nil => rfl
  | cons kv rest ih =>
    simp only [List.map_cons, List.mem_cons] at h
    push_neg at h
    rw [docApplySet, ih _ h.2, docGet_docSetField]
    simp [Ne.symm h.1]

/-- A `$set` update sets every field it mentions to the provided value (for a
duplicate-free update document, as a Go map always provides). -/
theorem docGet_docApplySet_mem (upd : Doc) (d : Doc) (k : String) (v : GoValue)
    (hnodup : (upd.map Prod.fst).Nodup) (hmem : (k, v) ∈ upd) :
    docGet (docApplySet d upd) k = some v := by
  induction upd generalizing d with
  | nil => simp at hmem
  | cons kv rest ih =>
    simp only [List.map_cons, List.nodup_cons] at hnodup
    rcases List.mem_cons.mp hmem with heq | hrest
    · subst heq
      rw [docApplySet, docGet_docApplySet_not_mem rest _ k hnodup.1,
        docGet_docSetField]
      simp
    · exact ih _ hnodup.2 hrest

/-- Running `updateFirstMatch` on a list whose first match is `d` updates exactly
`d`, in place. -/
theorem updateFirstMatch_decomp (filter upd : Doc) (pre post : List (GoValue × Doc))
    (d : GoValue × Doc) (hpre : ∀ p ∈ pre, filterMatches filter p = false)
    (hd : filterMatches filter d = true) :
    updateFirstMatch filter upd (pre ++ d :: post)
      = some (pre ++ (d.1, docApplySet d.2 upd) :: post) := by
  induction pre with
  | nil => simp [updateFirstMatch, hd]
  | cons p rest ih =>
    have hp : filterMatches filter p = false := hpre p (by simp)
    have ih' := ih (fun q hq => hpre q (by simp [hq]))
    simp [updateFirstMatch, hp, ih']

/-- Running `updateFirstMatch` when nothing matches finds nothing. -/
theorem updateFirstMatch_none (filter upd : Doc) (l : List (GoValue × Doc))
    (h : ∀ p ∈ l, filterMatches filter p = false) :
    updateFirstMatch filter upd l = none := by
  induction l with
  | nil => rfl
  | cons p rest ih =>
    have hp := h p (by simp)
    have ih' := ih (fun q hq => h q (by simp [hq]))
    simp [updateFirstMatch, hp, ih']

/-- C7: `Upsert` issues a single `UpdateOne` carrying the `$set`-wrapped
document and the upsert flag (not a whole-document replacement); against the
reference store, when a document matches the filter, the first match alone is
updated in place with field-level merge semantics (fields absent from the
provided document survive, provided fields take the provided values) and the
document count is unchanged; when no document matches, exactly one new
document is inserted, combining the filter-implied and provided fields; in
both cases exactly one document is affected. -/
theorem upsert_set_field_merge_semantics
    (m : MongodbStorage) (coll : String) (filter data : Doc) (st : MongoStore) :
    ((MongodbStorage.Upsert m storeClient coll filter data st).2.1
      = [.updateOne m.ctx coll filter (UpdateDoc.set data) true]) ∧
    (∀ pre d post, st.docs = pre ++ d :: post →
      (∀ p ∈ pre, filterMatches filter p = false) →
      filterMatches filter d = true →
      ((MongodbStorage.Upsert m storeClient coll filter data st).1
          = .ok ⟨1, 1, 0, none⟩) ∧
      ((MongodbStorage.Upsert m storeClient coll filter data st).2.2.docs
          = pre ++ (d.1, docApplySet d.2 data) :: post) ∧
      ((MongodbStorage.Upsert m storeClient coll filter data st).2.2.docs.length
          = st.docs.length) ∧
      (∀ k, k ∉ data.map Prod.fst →
        docGet (docApplySet d.2 data) k = docGet d.2 k) ∧
      ((data.map Prod.fst).Nodup → ∀ k v, (k, v) ∈ data →
        docGet (docApplySet d.2 data) k = some v)) ∧
    ((∀ p ∈ st.docs, filterMatches filter p = false) →
      ((MongodbStorage.Upsert m storeClient coll filter data st).1
          = .ok ⟨0, 0, 1, some (genId st)⟩) ∧
      ((MongodbStorage.Upsert m storeClient coll filter data st).2.2.docs
          = st.docs ++ [(genId st, docApplySet filter data)])) := by
  refine ⟨?_, ?_, ?_⟩
  · unfold MongodbStorage.Upsert storeClient
    rcases h : updateFirstMatch filter data st.docs with _ | docs' <;> simp [h]
  · intro pre d post hdocs hpre hd
    have hupd : updateFirstMatch filter data (pre ++ d :: post)
        = some (pre ++ (d.1, docApplySet d.2 data) :: post) :=
      updateFirstMatch_decomp filter data pre post d hpre hd
    refine ⟨?_, ?_, ?_, ?_, ?_⟩
    · simp [MongodbStorage.Upsert, storeClient, hdocs, hupd]
    · simp [MongodbStorage.Upsert, storeClient, hdocs, hupd]
    · simp [MongodbStorage.Upsert, storeClient, hdocs, hupd]
    · exact fun k hk => docGet_docApplySet_not_mem data d.2 k hk
    · exact fun hnodup k v hmem => docGet_docApplySet_mem data d.2 k v hnodup hmem
  · intro hnone
    have hupd : updateFirstMatch filter data st.docs = none :=
      updateFirstMatch_none filter data st.docs hnone
    constructor
    · simp [MongodbStorage.Upsert, storeClient, hupd]
    · simp [MongodbStorage.Upsert, storeClient, hupd]

/-- Witness for C7 at concrete inputs: updating a matching document merges
the one provided field and keeps the untouched field; upserting against an
empty store inserts the filter-plus-data combination. -/
theorem upsert_set_field_merge_semantics_witness :
    ((MongodbStorage.Upsert ⟨GoCtx.background, "db"⟩ storeClient "c"
        [("a", .VInt 1)] [("b", .VInt 9)]
        ⟨1, [(.VInt 0, [("a", .VInt 1), ("b", .VInt 2), ("keep", .VBool true)])]⟩).2.2.docs
      = [(.VInt 0, [("a", .VInt 1), ("b", .VInt 9), ("keep", .VBool true)])]) ∧
    (docGet (docApplySet [("a", .VInt 1), ("b", .VInt 2), ("keep", .VBool true)]
        [("b", .VInt 9)]) "keep" = some (.VBool true)) ∧
    ((MongodbStorage.Upsert ⟨GoCtx.background, "db"⟩ storeClient "c"
        [("a", .VInt 1)] [("b", .VInt 9)] ⟨0, []⟩).2.2.docs
      = [(.VInt 0, [("a", .VInt 1), ("b", .VInt 9)])]) := by
  have h1 := (upsert_set_field_merge_semantics ⟨GoCtx.background, "db"⟩ "c"
    [("a", .VInt 1)] [("b", .VInt 9)]
    ⟨1, [(.VInt 0, [("a", .VInt 1), ("b", .VInt 2), ("keep", .VBool true)])]⟩).2.1
    [] (.VInt 0, [("a", .VInt 1), ("b", .VInt 2), ("keep", .VBool true)]) []
    rfl (by simp) (by decide)
  have h2 := (upsert_set_field_merge_semantics ⟨GoCtx.background, "db"⟩ "c"
    [("a", .VInt 1)] [("b", .VInt 9)] ⟨0, []⟩).2.2 (by simp)
  refine ⟨?_, ?_, ?_⟩
  · have := h1.2.1
    simpa using this
  · have h := h1.2.2.2.1 "keep" (by decide)
    rw [h]
    decide
  · simpa using h2.2

/-- Looking an identifier up after appending a document under that fresh
identifier finds exactly that document. -/
theorem findFirstMatch_by_id (i : GoValue) (d : Doc) (l : List (GoValue × Doc))
    (hfresh : ∀ p ∈ l, p.1 ≠ i) :
    findFirstMatch [("_id", i)] (l ++ [(i, d)]) = some (i, d) := by
  induction l with
  | nil => simp [findFirstMatch, filterMatches]
  | cons p rest ih =>
    have hp : filterMatches [("_id", i)] p = false := by
      simp [filterMatches]
      exact hfresh p (by simp)
    have ih' := ih (fun q hq => hfresh q (by simp [hq]))
    simp [findFirstMatch, hp, ih']

/-- C9: `InsertOne` passes the document to the client unchanged, obtaining
the generated identifier, and `FindOne` with the filter matching that
identifier returns the very same document — the facade transforms document
contents in neither direction.  (The hypothesis states that the generated
identifier is fresh, as the collaborator guarantees for the identifiers it
generates.) -/
theorem insertOne_findOne_roundtrip (m : MongodbStorage) (coll : String) (d : Doc)
    (st : MongoStore) (hfresh : ∀ p ∈ st.docs, p.1 ≠ genId st) :
    ((MongodbStorage.InsertOne m storeClient coll d st).1 = .ok (genId st)) ∧
    ((MongodbStorage.InsertOne m storeClient coll d st).2.2.docs
      = st.docs ++ [(genId st, d)]) ∧
    ((MongodbStorage.FindOne m storeClient coll [("_id", genId st)] []
        (MongodbStorage.InsertOne m storeClient coll d st).2.2).1 = .ok d) := by
  have hins : (MongodbStorage.InsertOne m storeClient coll d st).2.2
      = ⟨st.nextId + 1, st.docs ++ [(genId st, d)]⟩ := by
    simp [MongodbStorage.InsertOne, storeClient]
  refine ⟨?_, ?_, ?_⟩
  · simp [MongodbStorage.InsertOne, storeClient]
  · rw [hins]
  · rw [hins]
    have hfind := findFirstMatch_by_id (genId st) d st.docs hfresh
    simp [MongodbStorage.FindOne, storeClient, hfind]

/-- Witness for C9 at concrete inputs: inserting a two-field document into a
one-document store and fetching it back by the generated identifier returns
it verbatim. -/
theorem insertOne_findOne_roundtrip_witness :
    ((MongodbStorage.InsertOne ⟨GoCtx.background, "db"⟩ storeClient "c"
        [("a", .VInt 1), ("b", .VString "x")] ⟨1, [(.VInt 0, [("z", .VInt 9)])]⟩).1
      = .ok (.VInt 1)) ∧
    ((MongodbStorage.FindOne ⟨GoCtx.background, "db"⟩ storeClient "c"
        [("_id", .VInt 1)] []
        (MongodbStorage.InsertOne ⟨GoCtx.background, "db"⟩ storeClient "c"
          [("a", .VInt 1), ("b", .VString "x")] ⟨1, [(.VInt 0, [("z", .VInt 9)])]⟩).2.2).1
      = .ok [("a", .VInt 1), ("b", .VString "x")]) := by
  have h := insertOne_findOne_roundtrip ⟨GoCtx.background, "db"⟩ "c"
    [("a", .VInt 1), ("b", .VString "x")] ⟨1, [(.VInt 0, [("z", .VInt 9)])]⟩
    (by decide)
  exact ⟨h.1, h.2.2⟩

/-- A digit character reads back as its digit. -/
theorem digitVal_digitChar (d : Nat) (h : d < 10) : digitVal (digitChar d) = some d := by
  interval_cases d <;> decide

/-- Digit characters are digits, not signs and not a decimal point. -/
theorem digitChar_not_special (d : Nat) (h : d < 10) :
    digitChar d ≠ '+' ∧ digitChar d ≠ '-' ∧ digitChar d ≠ '.' := by
  interval_cases d <;> decide

/-- The digit parser processes an appended list in two passes. -/
theorem parseDigitsGo_append (l1 l2 : List Char) (acc : Nat) :
    parseDigitsGo acc (l1 ++ l2)
      = (parseDigitsGo acc l1).bind (fun m => parseDigitsGo m l2) := by
  induction l1 generalizing acc with
  | nil => rfl
  | cons c cs ih =>
    cases h : digitVal c with
    | some d => simp [parseDigitsGo, h, ih]
    | none => simp [parseDigitsGo, h]

/-- A base-10 rendering is never empty. -/
theorem natRepr_ne_nil (n : Nat) : natRepr n ≠ [] := by
  rw [natRepr]
  split <;> simp

/-- A base-10 rendering starts with a digit character. -/
theorem natRepr_head (n : Nat) :
    ∃ d rest, natRepr n = digitChar d :: rest ∧ d < 10 := by
  rw [natRepr]
  split
  next h => exact ⟨n, [], rfl, h⟩
  next h =>
    obtain ⟨d, rest, heq, hd⟩ := natRepr_head (n / 10)
    exact ⟨d, rest ++ [digitChar (n % 10)], by rw [heq]; rfl, hd⟩
  termination_by n
  decreasing_by exact Nat.div_lt_self (by omega) (by omega)

/-- Reading the base-10 rendering of `n` after an accumulator shifts the
accumulator by the rendering's width and adds `n`. -/
theorem parseDigitsGo_natRepr (n acc : Nat) :
    parseDigitsGo acc (natRepr n) = some (acc * 10 ^ (natRepr n).length + n) := by
  rw [natRepr]
  split
  next h =>
    simp [parseDigitsGo, digitVal_digitChar n h]
  next h =>
    rw [parseDigitsGo_append, parseDigitsGo_natRepr (n / 10) acc]
    have hm : n % 10 < 10 := Nat.mod_lt n (by omega)
    simp only [Option.some_bind, Option.some.injEq, parseDigitsGo,
      digitVal_digitChar (n % 10) hm, List.length_append, List.length_cons,
      List.length_nil, List.length_singleton]
    have hdm := Nat.div_add_mod n 10
    rw [pow_succ, ← mul_assoc]
    generalize acc * 10 ^ (natRepr (n / 10)).length = X
    omega
  termination_by n
  decreasing_by exact Nat.div_lt_self (by omega) (by omega)

/-- Print–parse round trip for natural numbers in base 10. -/
theorem parseDigits_natRepr (n : Nat) : parseDigits (natRepr n) = some n := by
  obtain ⟨d, rest, heq, hd⟩ := natRepr_head n
  have h := parseDigitsGo_natRepr n 0
  rw [heq] at h ⊢
  simpa [parseDigits] using h

/-- Go's `strconv.Atoi` reads back the base-10 rendering of every integer in the
`int64` range. -/
theorem goAtoi_intRepr (n : Int) (h1 : -(2 ^ 63) ≤ n) (h2 : n ≤ 2 ^ 63 - 1) :
    helper.goAtoi (String.mk (intRepr n)) = some n := by
  have habs : ((n.natAbs : Int)) = if n < 0 then -n else n := by
    split <;> omega
  unfold helper.goAtoi
  have hcs : (String.mk (intRepr n)).toList = intRepr n := rfl
  rw [hcs]
  obtain ⟨d, rest, heq, hd⟩ := natRepr_head n.natAbs
  obtain ⟨hplus, hminus, _⟩ := digitChar_not_special d hd
  by_cases hn : n < 0
  · simp only [intRepr, if_pos hn, heq]
    simp only [show ('-' : Char) ≠ '+' by decide, if_neg, if_pos, reduceIte]
    rw [← heq, parseDigits_natRepr]
    have hrange : -(2 ^ 63) ≤ -1 * ((n.natAbs : Int)) ∧
        -1 * ((n.natAbs : Int)) ≤ 2 ^ 63 - 1 := by
      constructor <;> omega
    simp only [if_pos hrange]
    congr 1
    omega
  · simp only [intRepr, if_neg hn, heq]
    simp only [if_neg hplus, if_neg hminus]
    rw [← heq, parseDigits_natRepr]
    have hrange : -(2 ^ 63) ≤ 1 * ((n.natAbs : Int)) ∧
        1 * ((n.natAbs : Int)) ≤ 2 ^ 63 - 1 := by
      constructor <;> omega
    simp only [if_pos hrange]
    congr 1
    omega

/-- Every character of a base-10 rendering is a digit character. -/
theorem natRepr_all_digits (n : Nat) :
    ∀ c ∈ natRepr n, ∃ d, d < 10 ∧ c = digitChar d := by
  rw [natRepr]
  split
  next h =>
    intro c hc
    simp only [List.mem_singleton] at hc
    exact ⟨n, h, hc⟩
  next h =>
    intro c hc
    rcases List.mem_append.mp hc with hc1 | hc2
    · exact natRepr_all_digits (n / 10) c hc1
    · simp only [List.mem_singleton] at hc2
      exact ⟨n % 10, Nat.mod_lt n (by omega), hc2⟩
  termination_by n
  decreasing_by exact Nat.div_lt_self (by omega) (by omega)

/-- List `takeWhile`/`dropWhile` split an all-satisfying prefix followed by a
failing character exactly there. -/
theorem takeWhile_append_stop (p : Char → Bool) (l1 l2 : List Char) (c : Char)
    (h1 : ∀ x ∈ l1, p x = true) (h2 : p c = false) :
    (l1 ++ c :: l2).takeWhile p = l1 ∧ (l1 ++ c :: l2).dropWhile p = c :: l2 := by
  induction l1 with
  | nil => simp [List.takeWhile, List.dropWhile, h2]
  | cons x xs ih =>
    have hx : p x = true := h1 x (by simp)
    have ih' := ih (fun y hy => h1 y (by simp [hy]))
    simp [List.takeWhile, List.dropWhile, hx, ih'.1, ih'.2]

/-- List `takeWhile`/`dropWhile` on an all-satisfying list keep everything. -/
theorem takeWhile_all (p : Char → Bool) (l : List Char) (h : ∀ x ∈ l, p x = true) :
    l.takeWhile p = l ∧ l.dropWhile p = [] := by
  induction l with
  | nil => simp
  | cons x xs ih =>
    have hx : p x = true := h x (by simp)
    have ih' := ih (fun y hy => h y (by simp [hy]))
    simp [List.takeWhile, List.dropWhile, hx, ih'.1, ih'.2]

/-- Leading zeros do not change the value a digit run parses to. -/
theorem parseDigitsGo_replicate_zero (j : Nat) (cs : List Char) :
    parseDigitsGo 0 (List.replicate j '0' ++ cs) = parseDigitsGo 0 cs := by
  induction j with
  | zero => rfl
  | succ j ih =>
    have h0 : digitVal '0' = some 0 := rfl
    simp only [List.replicate_succ, List.cons_append, parseDigitsGo, h0]
    simpa using ih

/-- A number below `10 ^ k` renders in at most `k` digits (for `k ≥ 1`). -/
theorem natRepr_length_le (n k : Nat) (h : n < 10 ^ k) (hk : 1 ≤ k) :
    (natRepr n).length ≤ k := by
  rw [natRepr]
  split
  next => simpa using hk
  next hge =>
    have hk2 : 2 ≤ k := by
      rcases Nat.lt_or_ge k 2 with hlt | hge2
      · interval_cases k <;> omega
      · exact hge2
    have hdiv : n / 10 < 10 ^ (k - 1) := by
      rw [Nat.div_lt_iff_lt_mul (by omega)]
      calc n < 10 ^ k := h
        _ = 10 ^ (k - 1) * 10 := by
          rw [← pow_succ]
          congr 1
          omega
    have ih := natRepr_length_le (n / 10) (k - 1) hdiv (by omega)
    simp only [List.length_append, List.length_cons, List.length_nil]
    omega
  termination_by n
  decreasing_by exact Nat.div_lt_self (by omega) (by omega)

/-- The zero-padded fractional block of width `k` parses to its value and has
width exactly `k`. -/
theorem parseDigits_padZeros (k r : Nat) (h : r < 10 ^ k) (hk : 1 ≤ k) :
    parseDigits (helper.padZeros k (natRepr r)) = some r ∧
      (helper.padZeros k (natRepr r)).length = k := by
  have hlen : (natRepr r).length ≤ k := natRepr_length_le r k h hk
  obtain ⟨d, rest, heq, hd⟩ := natRepr_head r
  constructor
  · rcases Nat.eq_zero_or_pos (k - (natRepr r).length) with hz | hp
    · unfold helper.padZeros
      rw [hz]
      simpa using parseDigits_natRepr r
    · unfold helper.padZeros
      obtain ⟨j, hj⟩ : ∃ j, k - (natRepr r).length = j + 1 :=
        ⟨k - (natRepr r).length - 1, by omega⟩
      rw [hj, List.replicate_succ, List.cons_append]
      have : parseDigitsGo 0 (('0' :: (List.replicate j '0' ++ natRepr r)))
          = parseDigitsGo 0 (natRepr r) := by
        have := parseDigitsGo_replicate_zero (j + 1) (natRepr r)
        simpa [List.replicate_succ] using this
      rw [show parseDigits ('0' :: (List.replicate j '0' ++ natRepr r))
          = parseDigitsGo 0 ('0' :: (List.replicate j '0' ++ natRepr r)) from rfl]
      rw [this, heq]
      have hparse := parseDigits_natRepr r
      rw [heq] at hparse
      simpa [parseDigits] using hparse
  · unfold helper.padZeros
    simp only [List.length_append, List.length_replicate]
    omega

/-- Rendered plain decimals read back to the exact decimal value they denote:
the rendering introduces no approximation. -/
theorem parse_decStr (neg : Bool) (a : Nat) (e : Int) :
    parseDecimalString (String.mk (helper.decStr neg a e))
      = some ((if neg then (-1 : ℚ) else 1) * a * (10 : ℚ) ^ e) := by
  by_cases ha : a = 0
  · have hds : helper.decStr neg a e = ['0'] := by
      simp [helper.decStr, ha]
    have h0 : parseDecimalString (String.mk ['0']) = some 0 := by
      have hp : parseDigits ['0'] = some 0 := rfl
      simp [parseDecimalString, hp, show ('0' : Char) ≠ '-' by decide]
    rw [hds, h0, ha]
    cases neg <;> simp
  · by_cases he : 0 ≤ e
    · have hds : helper.decStr neg a e
          = (if neg then ['-'] else []) ++ natRepr (a * 10 ^ e.toNat) := by
        simp [helper.decStr, ha, he]
      have hpow : (10 : ℚ) ^ e = (10 : ℚ) ^ e.toNat := by
        conv_lhs => rw [← Int.toNat_of_nonneg he]
        rw [zpow_natCast]
      have hM := parseDigits_natRepr (a * 10 ^ e.toNat)
      obtain ⟨d, rest0, heq, hd⟩ := natRepr_head (a * 10 ^ e.toNat)
      have hnodot : ∀ c ∈ natRepr (a * 10 ^ e.toNat),
          (fun c => decide (c ≠ '.')) c = true := by
        intro c hc
        obtain ⟨d', hd', hc'⟩ := natRepr_all_digits _ c hc
        subst hc'
        simpa using (digitChar_not_special d' hd').2.2
      have htake := takeWhile_all _ (natRepr (a * 10 ^ e.toNat)) hnodot
      have hdm : digitChar d ≠ '-' := (digitChar_not_special d hd).2.1
      rw [hds]
      cases neg with
      | false =>
        simp only [Bool.false_eq_true, reduceIte, List.nil_append]
        simp only [parseDecimalString, show (String.mk (natRepr (a * 10 ^ e.toNat))).toList
          = natRepr (a * 10 ^ e.toNat) from rfl]
        rw [heq]
        simp only [if_neg hdm, ← heq, htake.1, htake.2, hM]
        rw [hpow]
        push_cast
        ring_nf
      | true =>
        simp only [reduceIte, List.singleton_append]
        simp only [parseDecimalString,
          show (String.mk ('-' :: natRepr (a * 10 ^ e.toNat))).toList
            = '-' :: natRepr (a * 10 ^ e.toNat) from rfl]
        simp only [reduceIte, htake.1, htake.2, hM]
        rw [hpow]
        push_cast
        ring_nf
    · push_neg at he
      have hk1 : 1 ≤ (-e).toNat := by omega
      have hds : helper.decStr neg a e
          = (if neg then ['-'] else []) ++ natRepr (a / 10 ^ (-e).toNat)
            ++ '.' :: helper.padZeros (-e).toNat (natRepr (a % 10 ^ (-e).toNat)) := by
        simp [helper.decStr, ha, not_le.mpr he, List.append_assoc]
      have hq := parseDigits_natRepr (a / 10 ^ (-e).toNat)
      have hmod : a % 10 ^ (-e).toNat < 10 ^ (-e).toNat :=
        Nat.mod_lt _ (by positivity)
      have hfp := parseDigits_padZeros (-e).toNat (a % 10 ^ (-e).toNat) hmod hk1
      obtain ⟨d, rest0, heq, hd⟩ := natRepr_head (a / 10 ^ (-e).toNat)
      have hnodot : ∀ c ∈ natRepr (a / 10 ^ (-e).toNat),
          (fun c => decide (c ≠ '.')) c = true := by
        intro c hc
        obtain ⟨d', hd', hc'⟩ := natRepr_all_digits _ c hc
        subst hc'
        simpa using (digitChar_not_special d' hd').2.2
      have htake := takeWhile_append_stop _ (natRepr (a / 10 ^ (-e).toNat))
        (helper.padZeros (-e).toNat (natRepr (a % 10 ^ (-e).toNat))) '.' hnodot
        (by simp)
      have hdm : digitChar d ≠ '-' := (digitChar_not_special d hd).2.1
      have hval : ((if neg then (-1 : ℚ) else 1) * a * (10 : ℚ) ^ e)
          = (if neg then (-1 : ℚ) else 1)
            * (((a / 10 ^ (-e).toNat : ℕ) : ℚ) + ((a % 10 ^ (-e).toNat : ℕ) : ℚ)
                / (10 : ℚ) ^ ((-e).toNat)) := by
        have hdiv := Nat.div_add_mod a (10 ^ (-e).toNat)
        have hzp : (10 : ℚ) ^ e = ((10 : ℚ) ^ ((-e).toNat))⁻¹ := by
          rw [← zpow_natCast (10 : ℚ) (-e).toNat, ← zpow_neg]
          congr 1
          omega
        have hcast : (a : ℚ) = (10 : ℚ) ^ ((-e).toNat)
            * ((a / 10 ^ (-e).toNat : ℕ) : ℚ) + ((a % 10 ^ (-e).toNat : ℕ) : ℚ) := by
          exact_mod_cast hdiv.symm
        have h10 : ((10 : ℚ) ^ ((-e).toNat)) ≠ 0 := by positivity
        rw [mul_assoc, hzp, hcast]
        field_simp
        ring
      rw [hds, hval]
      cases neg with
      | false =>
        simp only [Bool.false_eq_true, reduceIte, List.nil_append]
        simp only [parseDecimalString,
          show (String.mk (natRepr (a / 10 ^ (-e).toNat)
              ++ '.' :: helper.padZeros (-e).toNat (natRepr (a % 10 ^ (-e).toNat)))).toList
            = natRepr (a / 10 ^ (-e).toNat)
              ++ '.' :: helper.padZeros (-e).toNat (natRepr (a % 10 ^ (-e).toNat)) from rfl]
        rw [heq, List.cons_append]
        simp only [if_neg hdm]
        rw [← List.cons_append, ← heq]
        simp only [htake.1, htake.2, hq, hfp.1, hfp.2]
      | true =>
        simp only [reduceIte, List.singleton_append, List.cons_append, List.nil_append]
        simp only [parseDecimalString,
          show (String.mk ('-' :: (natRepr (a / 10 ^ (-e).toNat)
              ++ '.' :: helper.padZeros (-e).toNat (natRepr (a % 10 ^ (-e).toNat))))).toList
            = '-' :: (natRepr (a / 10 ^ (-e).toNat)
              ++ '.' :: helper.padZeros (-e).toNat (natRepr (a % 10 ^ (-e).toNat))) from rfl]
        simp only [reduceIte, htake.1, htake.2, hq, hfp.1, hfp.2]

/-- Stripping trailing fractional zeros preserves the denoted value. -/
theorem stripZeros_val (a : Nat) (e : Int) :
    (((helper.stripZeros a e).1 : Nat) : ℚ) * (10 : ℚ) ^ (helper.stripZeros a e).2
      = (a : ℚ) * (10 : ℚ) ^ e := by
  rw [helper.stripZeros]
  split
  next h =>
    rw [stripZeros_val (a / 10) (e + 1)]
    obtain ⟨b, hb⟩ : 10 ∣ a := Nat.dvd_of_mod_eq_zero h.2.2
    subst hb
    rw [Nat.mul_div_cancel_left b (by omega)]
    rw [zpow_add₀ (by norm_num : (10 : ℚ) ≠ 0) e 1]
    push_cast
    ring
  next => rfl
  termination_by a
  decreasing_by omega

/-- The sign bit and absolute value recombine to the mantissa. -/
theorem sign_mul_natAbs (mant : Int) :
    (if mant < 0 then (-1 : ℚ) else 1) * ((mant.natAbs : Nat) : ℚ) = (mant : ℚ) := by
  split
  next h =>
    rw [Int.cast_natAbs, abs_of_neg h]
    push_cast
    ring
  next h =>
    rw [Int.cast_natAbs, abs_of_nonneg (by omega : (0 : Int) ≤ mant)]
    push_cast
    ring

/-- The decimal rendering of a modelled float denotes exactly its value. -/
theorem parse_decimalString (f : GoFloat) :
    parseDecimalString (helper.decimalString f) = some f.toRat := by
  unfold helper.decimalString
  have hmk : String.mk (helper.decStr (f.mant < 0)
      (helper.stripZeros f.mant.natAbs f.exp).1
      (helper.stripZeros f.mant.natAbs f.exp).2)
      = String.mk (helper.decStr (decide (f.mant < 0))
        (helper.stripZeros f.mant.natAbs f.exp).1
        (helper.stripZeros f.mant.natAbs f.exp).2) := rfl
  rw [parse_decStr (decide (f.mant < 0)) (helper.stripZeros f.mant.natAbs f.exp).1
    (helper.stripZeros f.mant.natAbs f.exp).2]
  congr 1
  rw [mul_assoc, stripZeros_val f.mant.natAbs f.exp, ← mul_assoc]
  unfold GoFloat.toRat
  congr 1
  have : (if f.mant < 0 then (-1 : ℚ) else 1)
      = (if (decide (f.mant < 0)) = true then (-1 : ℚ) else 1) := by
    by_cases h : f.mant < 0 <;> simp [h]
  rw [← this]
  exact sign_mul_natAbs f.mant

/-- The integer rendering is the integer case of the plain decimal
rendering. -/
theorem intRepr_eq_decStr (n : Int) :
    intRepr n = helper.decStr (decide (n < 0)) n.natAbs 0 := by
  unfold intRepr helper.decStr
  by_cases h0 : n.natAbs = 0
  · have hn0 : n = 0 := by omega
    subst hn0
    simp [natRepr, show digitChar 0 = '0' from rfl]
  · by_cases hn : n < 0 <;>
      simp [hn, h0, pow_zero, mul_one]

/-- The default integer rendering reads back to the exact integer. -/
theorem parse_intRepr (n : Int) :
    parseDecimalString (String.mk (intRepr n)) = some (n : ℚ) := by
  rw [intRepr_eq_decStr n, parse_decStr]
  congr 1
  rw [zpow_zero, mul_one]
  have hsign : (if (decide (n < 0)) = true then (-1 : ℚ) else 1)
      = (if n < 0 then (-1 : ℚ) else 1) := by
    by_cases h : n < 0 <;> simp [h]
  rw [hsign]
  exact sign_mul_natAbs n

/-- C6: `ToString` renders every numeric value by exact decimal formatting —
the produced string reads back to precisely the value being rendered, for
floats (through the decimal library) and for integers (default decimal
rendering) alike — and every other value by the default textual
representation; in particular `ToString(1.50)` renders as `"1.5"`. -/
theorem toString_exact_decimal_rendering (f : GoFloat) (n : Int) (s : String) (b : Bool) :
    (parseDecimalString (helper.ToString (.VFloat f)) = some f.toRat) ∧
    (parseDecimalString (helper.ToString (.VInt n)) = some (n : ℚ)) ∧
    (helper.ToString (.VString s) = s) ∧
    (helper.ToString (.VBool b) = if b then "true" else "false") ∧
    (helper.ToString (.VFloat ⟨150, -2⟩) = "1.5") := by
  refine ⟨parse_decimalString f, parse_intRepr n, rfl, ?_, ?_⟩
  · cases b <;> rfl
  · simp [helper.ToString, helper.decimalString, helper.stripZeros, helper.decStr,
      helper.padZeros, natRepr, digitChar, digitVal]

/-- Correctness of the fuel-driven binary logarithm. -/
theorem natLog2Aux_spec (fuel : Nat) : ∀ n : Nat, 1 ≤ n → n ≤ fuel →
    2 ^ natLog2Aux fuel n ≤ n ∧ n < 2 ^ (natLog2Aux fuel n + 1) := by
  induction fuel with
  | zero =>
    intro n h1 h2
    omega
  | succ fuel ih =>
    intro n h1 h2
    by_cases hn : n < 2
    · have hn1 : n = 1 := by omega
      subst hn1
      simp [natLog2Aux]
    · obtain ⟨u1, u2⟩ := ih (n / 2) (by omega) (by omega)
      simp only [natLog2Aux, if_neg hn]
      have h1' : 2 ^ (natLog2Aux fuel (n / 2) + 1)
          = 2 ^ natLog2Aux fuel (n / 2) * 2 := pow_succ _ _
      have h2' : 2 ^ (natLog2Aux fuel (n / 2) + 1 + 1)
          = 2 ^ (natLog2Aux fuel (n / 2) + 1) * 2 := pow_succ _ _
      rw [h1'] at u2
      rw [h2', h1']
      omega

/-- Correctness of `natLog2`. -/
theorem natLog2_spec (n : Nat) (h : 1 ≤ n) :
    2 ^ natLog2 n ≤ n ∧ n < 2 ^ (natLog2 n + 1) := by
  exact natLog2Aux_spec n n h le_rfl

/-- A natural power of two as an integer power in the rationals. -/
theorem two_zpow_natCast (n : Nat) : (2 : ℚ) ^ ((n : Nat) : Int) = ((2 ^ n : Nat) : ℚ) := by
  rw [zpow_natCast]
  push_cast
  ring

/-- A successor power of two as an integer power in the rationals. -/
theorem two_zpow_add_one (n : Nat) :
    (2 : ℚ) ^ (((n : Nat) : Int) + 1) = ((2 ^ (n + 1) : Nat) : ℚ) := by
  have h : (((n : Nat) : Int) + 1) = (((n + 1 : Nat) : Nat) : Int) := by push_cast; ring
  rw [h, two_zpow_natCast]

/-- `ratLog2` finds the binary window of a positive rational. -/
theorem ratLog2_spec (q : ℚ) (hq : 0 < q) :
    (2 : ℚ) ^ ratLog2 q ≤ q ∧ q < (2 : ℚ) ^ (ratLog2 q + 1) := by
  have hnum : 0 < q.num := Rat.num_pos.mpr hq
  have hna : 1 ≤ q.num.natAbs := by omega
  have hden : 1 ≤ q.den := q.den_pos
  obtain ⟨ha1, ha2⟩ := natLog2_spec q.num.natAbs hna
  obtain ⟨hb1, hb2⟩ := natLog2_spec q.den hden
  have hdq : (0 : ℚ) < ((q.den : Nat) : ℚ) := by positivity
  have hnq : ((q.num.natAbs : Nat) : ℚ) = ((q.num : Int) : ℚ) := by
    rw [Int.cast_natAbs]
    exact_mod_cast abs_of_pos hnum
  set a := natLog2 q.num.natAbs with hadef
  set b := natLog2 q.den with hbdef
  have ha1' : (2 : ℚ) ^ ((a : Int)) ≤ ((q.num : Int) : ℚ) := by
    rw [← hnq, two_zpow_natCast]
    exact_mod_cast ha1
  have ha2' : ((q.num : Int) : ℚ) < (2 : ℚ) ^ ((a : Int) + 1) := by
    rw [← hnq, two_zpow_add_one]
    exact_mod_cast ha2
  have hb1' : (2 : ℚ) ^ ((b : Int)) ≤ ((q.den : Nat) : ℚ) := by
    rw [two_zpow_natCast]
    exact_mod_cast hb1
  have hb2' : ((q.den : Nat) : ℚ) < (2 : ℚ) ^ ((b : Int) + 1) := by
    rw [two_zpow_add_one]
    exact_mod_cast hb2
  have hlow : (2 : ℚ) ^ ((a : Int) - (b : Int) - 1) < q := by
    conv_rhs => rw [← Rat.num_div_den q]
    rw [lt_div_iff hdq]
    calc (2 : ℚ) ^ ((a : Int) - (b : Int) - 1) * ((q.den : Nat) : ℚ)
        < (2 : ℚ) ^ ((a : Int) - (b : Int) - 1) * ((2 : ℚ) ^ ((b : Int) + 1)) :=
          mul_lt_mul_of_pos_left hb2' (by positivity)
      _ = (2 : ℚ) ^ ((a : Int)) := by
          rw [← zpow_add₀ (by norm_num : (2 : ℚ) ≠ 0)]
          congr 1
          ring
      _ ≤ ((q.num : Int) : ℚ) := ha1'
  have hhigh : q < (2 : ℚ) ^ ((a : Int) - (b : Int) + 1) := by
    conv_lhs => rw [← Rat.num_div_den q]
    rw [div_lt_iff hdq]
    calc ((q.num : Int) : ℚ) < (2 : ℚ) ^ ((a : Int) + 1) := ha2'
      _ = (2 : ℚ) ^ ((a : Int) - (b : Int) + 1) * (2 : ℚ) ^ ((b : Int)) := by
          rw [← zpow_add₀ (by norm_num : (2 : ℚ) ≠ 0)]
          congr 1
          ring
      _ ≤ (2 : ℚ) ^ ((a : Int) - (b : Int) + 1) * ((q.den : Nat) : ℚ) :=
          mul_le_mul_of_nonneg_left hb1' (by positivity)
  unfold ratLog2
  rw [← hadef, ← hbdef]
  by_cases hc : q < (2 : ℚ) ^ ((a : Int) - (b : Int))
  · rw [if_pos hc]
    refine ⟨hlow.le, ?_⟩
    rw [sub_add_cancel]
    exact hc
  · rw [if_neg hc]
    exact ⟨le_of_not_lt hc, hhigh⟩

/-- The binary window determines `ratLog2`. -/
theorem ratLog2_unique (q : ℚ) (t : Int) (hq : 0 < q)
    (h1 : (2 : ℚ) ^ t ≤ q) (h2 : q < (2 : ℚ) ^ (t + 1)) :
    ratLog2 q = t := by
  obtain ⟨g1, g2⟩ := ratLog2_spec q hq
  by_contra hne
  rcases lt_or_gt_of_ne hne with hlt | hgt
  · have : (2 : ℚ) ^ (ratLog2 q + 1) ≤ (2 : ℚ) ^ t :=
      zpow_le_zpow_right₀ (by norm_num) (by omega)
    linarith
  · have : (2 : ℚ) ^ (t + 1) ≤ (2 : ℚ) ^ (ratLog2 q) :=
      zpow_le_zpow_right₀ (by norm_num) (by omega)
    linarith

/-- Rounding to nearest moves a rational by at most one half. -/
theorem abs_roundNearestEven_sub (q : ℚ) :
    |((roundNearestEven q : Int) : ℚ) - q| ≤ 1 / 2 := by
  unfold roundNearestEven
  dsimp only
  have hfl : ((⌊q⌋ : Int) : ℚ) ≤ q := Int.floor_le q
  have hfl2 : q < ((⌊q⌋ : Int) : ℚ) + 1 := Int.lt_floor_add_one q
  by_cases hA : q - ((⌊q⌋ : Int) : ℚ) < 1 / 2
  · rw [if_pos hA, abs_le]
    constructor <;> linarith
  · rw [if_neg hA]
    by_cases hB : 1 / 2 < q - ((⌊q⌋ : Int) : ℚ)
    · rw [if_pos hB]
      push_cast
      rw [abs_le]
      constructor <;> linarith
    · rw [if_neg hB]
      by_cases hC : ⌊q⌋ % 2 = 0
      · rw [if_pos hC, abs_le]
        constructor <;> linarith
      · rw [if_neg hC]
        push_cast
        rw [abs_le]
        constructor <;> linarith

/-- Rounding to nearest fixes integers. -/
theorem roundNearestEven_intCast (n : Int) : roundNearestEven ((n : Int) : ℚ) = n := by
  unfold roundNearestEven
  rw [Int.floor_intCast]
  norm_num

/-- `float64Round` fixes every value on the finite binary64 grid: a
significand below `2 ^ 53` at an exponent at least `-1074`. -/
theorem float64Round_fix (q : ℚ) (m E : Int)
    (hm : m.natAbs < 2 ^ 53) (hE1 : -1074 ≤ E)
    (hq : q = (m : ℚ) * (2 : ℚ) ^ E) :
    float64Round q = q := by
  by_cases h0 : q = 0
  · rw [float64Round, if_pos h0, h0]
  · rw [float64Round, if_neg h0]
    dsimp only
    have hm0 : m ≠ 0 := by
      intro h
      rw [h] at hq
      simp at hq
      exact h0 hq
    have hpow_pos : (0 : ℚ) < (2 : ℚ) ^ E := by positivity
    have habs : |q| = ((m.natAbs : Nat) : ℚ) * (2 : ℚ) ^ E := by
      rw [hq, abs_mul, abs_of_pos hpow_pos, Int.cast_natAbs, Int.cast_abs]
    have habs_pos : 0 < |q| := abs_pos.mpr h0
    have he_le : ratLog2 |q| - 52 ≤ E := by
      have hup : |q| < (2 : ℚ) ^ (E + 53) := by
        rw [habs]
        have hm' : ((m.natAbs : Nat) : ℚ) < (2 : ℚ) ^ ((53 : Nat) : Int) := by
          rw [two_zpow_natCast]
          exact_mod_cast hm
        calc ((m.natAbs : Nat) : ℚ) * (2 : ℚ) ^ E
            < (2 : ℚ) ^ ((53 : Nat) : Int) * (2 : ℚ) ^ E :=
              mul_lt_mul_of_pos_right hm' hpow_pos
          _ = (2 : ℚ) ^ (E + 53) := by
              rw [← zpow_add₀ (by norm_num : (2 : ℚ) ≠ 0)]
              congr 1
              omega
      obtain ⟨g1, _⟩ := ratLog2_spec |q| habs_pos
      have : ratLog2 |q| < E + 53 := by
        by_contra hcon
        push_neg at hcon
        have := zpow_le_zpow_right₀ (by norm_num : (1 : ℚ) ≤ 2) hcon
        linarith
      omega
    set e := max (ratLog2 |q| - 52) (-1074) with hedef
    have he_le' : e ≤ E := by omega
    have hint : |q| / (2 : ℚ) ^ e = ((m.natAbs * 2 ^ (E - e).toNat : Nat) : ℚ) := by
      rw [habs, div_eq_iff (by positivity : ((2 : ℚ) ^ e) ≠ 0)]
      push_cast
      rw [← zpow_natCast (2 : ℚ) ((E - e).toNat),
        Int.toNat_of_nonneg (by omega : 0 ≤ E - e), mul_assoc,
        ← zpow_add₀ (by norm_num : (2 : ℚ) ≠ 0)]
      congr 2
      omega
    rw [hint]
    have hroundfix : roundNearestEven ((m.natAbs * 2 ^ (E - e).toNat : Nat) : ℚ)
        = ((m.natAbs * 2 ^ (E - e).toNat : Nat) : Int) := by
      have h := roundNearestEven_intCast ((m.natAbs * 2 ^ (E - e).toNat : Nat) : Int)
      have hcast : (((m.natAbs * 2 ^ (E - e).toNat : Nat) : Int) : ℚ)
          = ((m.natAbs * 2 ^ (E - e).toNat : Nat) : ℚ) := by
        push_cast
        rw [Int.cast_natAbs, Int.cast_abs]
      rw [hcast] at h
      exact h
    rw [hroundfix]
    have hsign_iff : q < 0 ↔ m < 0 := by
      rw [hq]
      constructor
      · intro h
        by_contra hcon
        push_neg at hcon
        have : (0 : ℚ) ≤ (m : ℚ) * (2 : ℚ) ^ E :=
          mul_nonneg (by exact_mod_cast hcon) hpow_pos.le
        linarith
      · intro h
        exact mul_neg_of_neg_of_pos (by exact_mod_cast h) hpow_pos
    have hifs : (if q < 0 then (-1 : ℚ) else 1) = (if m < 0 then (-1 : ℚ) else 1) := by
      by_cases h : m < 0
      · rw [if_pos (hsign_iff.mpr h), if_pos h]
      · rw [if_neg (fun hc => h (hsign_iff.mp hc)), if_neg h]
    rw [hifs, hq]
    have hcc : (((m.natAbs * 2 ^ (E - e).toNat : Nat) : Int) : ℚ)
        = ((m.natAbs : Nat) : ℚ) * (2 : ℚ) ^ (E - e) := by
      rw [Int.cast_natCast, Nat.cast_mul, Nat.cast_pow, Nat.cast_ofNat,
        ← zpow_natCast (2 : ℚ) ((E - e).toNat),
        Int.toNat_of_nonneg (by omega : 0 ≤ E - e)]
    rw [hcc]
    set S := (if m < 0 then (-1 : ℚ) else 1) with hS
    have hPQ : (2 : ℚ) ^ (E - e) * (2 : ℚ) ^ e = (2 : ℚ) ^ E := by
      rw [← zpow_add₀ (by norm_num : (2 : ℚ) ≠ 0)]
      congr 1
      omega
    calc S * (((m.natAbs : Nat) : ℚ) * (2 : ℚ) ^ (E - e)) * (2 : ℚ) ^ e
        = (S * ((m.natAbs : Nat) : ℚ)) * ((2 : ℚ) ^ (E - e) * (2 : ℚ) ^ e) := by ring
      _ = (m : ℚ) * (2 : ℚ) ^ E := by
          rw [hS, sign_mul_natAbs m, hPQ]

/-- The error of binary64 rounding: for values of magnitude at least one,
the result is within half an ulp, `2 ^ (ratLog2 |q| - 53)`. -/
theorem float64Round_err (q : ℚ) (h1 : 1 ≤ |q|) :
    |float64Round q - q| ≤ (2 : ℚ) ^ (ratLog2 |q| - 53) := by
  have h0 : q ≠ 0 := by
    intro h
    rw [h, abs_zero] at h1
    linarith
  rw [float64Round, if_neg h0]
  dsimp only
  have habs_pos : 0 < |q| := by linarith
  have hl0 : 0 ≤ ratLog2 |q| := by
    obtain ⟨g1, g2⟩ := ratLog2_spec |q| habs_pos
    by_contra hcon
    push_neg at hcon
    have hle : ratLog2 |q| + 1 ≤ 0 := by omega
    have := zpow_le_zpow_right₀ (by norm_num : (1 : ℚ) ≤ 2) hle
    rw [zpow_zero] at this
    linarith
  have hmax : max (ratLog2 |q| - 52) (-1074) = ratLog2 |q| - 52 := by omega
  rw [hmax]
  set l := ratLog2 |q| with hldef
  set aq := |q| with haq
  set x := aq / (2 : ℚ) ^ (l - 52) with hxdef
  have hround := abs_roundNearestEven_sub x
  have hsq : (if q < 0 then (-1 : ℚ) else 1) * aq = q := by
    rw [haq]
    by_cases h : q < 0
    · rw [if_pos h, abs_of_neg h]
      ring
    · rw [if_neg h, abs_of_nonneg (le_of_not_lt h)]
      ring
  have hq_back : aq = x * (2 : ℚ) ^ (l - 52) := by
    rw [hxdef]
    field_simp
  calc |(if q < 0 then (-1 : ℚ) else 1) * ((roundNearestEven x : Int) : ℚ) * (2 : ℚ) ^ (l - 52) - q|
      = |(if q < 0 then (-1 : ℚ) else 1)|
          * |((roundNearestEven x : Int) : ℚ) * (2 : ℚ) ^ (l - 52) - aq| := by
        have hexpand : (if q < 0 then (-1 : ℚ) else 1)
              * (((roundNearestEven x : Int) : ℚ) * (2 : ℚ) ^ (l - 52) - aq)
            = (if q < 0 then (-1 : ℚ) else 1) * ((roundNearestEven x : Int) : ℚ)
              * (2 : ℚ) ^ (l - 52) - q := by
          rw [mul_sub, hsq]
          ring
        rw [← hexpand, abs_mul]
    _ = |((roundNearestEven x : Int) : ℚ) * (2 : ℚ) ^ (l - 52) - aq| := by
        by_cases h : q < 0 <;> simp [h]
    _ = |((roundNearestEven x : Int) : ℚ) - x| * (2 : ℚ) ^ (l - 52) := by
        rw [hq_back, show ((roundNearestEven x : Int) : ℚ) * (2 : ℚ) ^ (l - 52)
              - x * (2 : ℚ) ^ (l - 52)
            = (((roundNearestEven x : Int) : ℚ) - x) * (2 : ℚ) ^ (l - 52) by ring]
        rw [abs_mul, abs_of_pos (by positivity : (0 : ℚ) < (2 : ℚ) ^ (l - 52))]
    _ ≤ (1 / 2) * (2 : ℚ) ^ (l - 52) := mul_le_mul_of_nonneg_right hround (by positivity)
    _ = (2 : ℚ) ^ (l - 53) := by
        rw [show l - 53 = (l - 52) + (-1) by omega]
        rw [zpow_add₀ (by norm_num : (2 : ℚ) ≠ 0), zpow_neg, zpow_one]
        ring

/-- C5 (amended): `ToInt` parses every string input as a base-10 integer
(whatever `strconv.Atoi` reads is returned, the base-10 rendering of every
`int64` reads back to itself, and any parse failure — including `int64`
overflow — yields zero); it truncates toward zero the binary64 value of
every float input whose truncation is representable in the `int64` result
type (floor of non-negative values, ceiling of negative ones; out-of-range
truncations are implementation-defined in Go and outside this statement);
the binary64 value is the faithfully rounded numeral — exact on the finite
binary64 grid and within half an ulp in general; every unsupported input
yields zero; and `ToInt("42") = 42`, `ToInt("abc") = 0`, `ToInt(3.9) = 3`. -/
theorem toInt_base10_truncation_zero_default
    (s : String) (f : GoFloat) (n v i : Int) (b : Bool) :
    (helper.goAtoi s = some v → helper.ToInt (.VString s) = v) ∧
    (helper.goAtoi s = none → helper.ToInt (.VString s) = 0) ∧
    (-(2 ^ 63) ≤ n → n ≤ 2 ^ 63 - 1 →
      helper.ToInt (.VString (String.mk (intRepr n))) = n) ∧
    (0 ≤ f.float64Val → -(2 ^ 63) ≤ ⌊f.float64Val⌋ → ⌊f.float64Val⌋ ≤ 2 ^ 63 - 1 →
      helper.ToInt (.VFloat f) = ⌊f.float64Val⌋) ∧
    (f.float64Val < 0 → -(2 ^ 63) ≤ ⌈f.float64Val⌉ → ⌈f.float64Val⌉ ≤ 2 ^ 63 - 1 →
      helper.ToInt (.VFloat f) = ⌈f.float64Val⌉) ∧
    (∀ m E : Int, m.natAbs < 2 ^ 53 → -1074 ≤ E → E ≤ 971 →
      f.toRat = (m : ℚ) * (2 : ℚ) ^ E → f.float64Val = f.toRat) ∧
    (1 ≤ |f.toRat| → |f.toRat| ≤ (2 : ℚ) ^ (1023 : Int) →
      |f.float64Val - f.toRat| ≤ (2 : ℚ) ^ (ratLog2 |f.toRat| - 53)) ∧
    helper.ToInt (.VInt i) = 0 ∧
    helper.ToInt (.VBool b) = 0 ∧
    helper.ToInt (.VString "42") = 42 ∧
    helper.ToInt (.VString "abc") = 0 ∧
    helper.ToInt (.VFloat ⟨39, -1⟩) = 3 := by
  refine ⟨?_, ?_, ?_, ?_, ?_, ?_, ?_, rfl, rfl, by decide, by decide, ?_⟩
  · intro h
    simp [helper.ToInt, h]
  · intro h
    simp [helper.ToInt, h]
  · intro h1 h2
    simp [helper.ToInt, goAtoi_intRepr n h1 h2]
  · intro h0 h1 h2
    have hT : helper.ToInt (.VFloat f) = int64Trunc f.float64Val := rfl
    rw [hT]
    unfold int64Trunc
    dsimp only
    rw [if_pos h0, if_pos ⟨h1, h2⟩]
  · intro h0 h1 h2
    have hT : helper.ToInt (.VFloat f) = int64Trunc f.float64Val := rfl
    rw [hT]
    unfold int64Trunc
    dsimp only
    rw [if_neg (not_le.mpr h0), if_pos ⟨h1, h2⟩]
  · intro m E hm hE1 hE2 hq
    exact float64Round_fix f.toRat m E hm hE1 hq
  · intro h1 h2
    exact float64Round_err f.toRat h1
  · have h39 : GoFloat.toRat ⟨39, -1⟩ = 39 / 10 := by
      unfold GoFloat.toRat
      norm_num
    have habs : |(39 / 10 : ℚ)| = 39 / 10 := abs_of_pos (by norm_num)
    have herr := float64Round_err (39 / 10) (by rw [habs]; norm_num)
    have hlog : ratLog2 |(39 / 10 : ℚ)| = 1 := by
      rw [habs]
      apply ratLog2_unique _ _ (by norm_num)
      · norm_num
      · norm_num
    have hble : (2 : ℚ) ^ (ratLog2 |(39 / 10 : ℚ)| - 53) ≤ 1 / 100 := by
      rw [hlog]
      norm_num
    have hwin := abs_le.mp (le_trans herr hble)
    have hwv : GoFloat.float64Val ⟨39, -1⟩ = float64Round (39 / 10) := by
      unfold GoFloat.float64Val
      rw [h39]
    have hlo : (3 : ℚ) ≤ GoFloat.float64Val ⟨39, -1⟩ := by
      rw [hwv]
      linarith [hwin.1]
    have hhi : GoFloat.float64Val ⟨39, -1⟩ < 4 := by
      rw [hwv]
      linarith [hwin.2]
    have h0w : (0 : ℚ) ≤ GoFloat.float64Val ⟨39, -1⟩ := by linarith
    have hfw : ⌊GoFloat.float64Val ⟨39, -1⟩⌋ = 3 := by
      rw [Int.floor_eq_iff]
      constructor
      · push_cast
        linarith
      · push_cast
        linarith
    have hT : helper.ToInt (.VFloat ⟨39, -1⟩)
        = int64Trunc (GoFloat.float64Val ⟨39, -1⟩) := rfl
    rw [hT]
    unfold int64Trunc
    dsimp only
    rw [if_pos h0w, hfw]
    norm_num

/-- C5 counterexample: the float input `1e19` is exactly representable in
binary64 (`5 ^ 19 * 2 ^ 19`), its truncation toward zero is `10 ^ 19`, which
exceeds the `int64` result type of `ToInt`, and `ToInt` returns the modelled
implementation-defined conversion result `-2 ^ 63` — not the truncation: so
`ToInt` does not truncate every float input toward zero. -/
theorem toInt_out_of_range_float_cex :
    (GoFloat.toRat ⟨1, 19⟩ = 10 ^ 19) ∧
    (GoFloat.float64Val ⟨1, 19⟩ = 10 ^ 19) ∧
    (helper.ToInt (.VFloat ⟨1, 19⟩) = -(2 ^ 63)) ∧
    (⌊GoFloat.toRat ⟨1, 19⟩⌋ = 10 ^ 19) ∧
    (helper.ToInt (.VFloat ⟨1, 19⟩) ≠ ⌊GoFloat.toRat ⟨1, 19⟩⌋) := by
  have h1 : GoFloat.toRat ⟨1, 19⟩ = 10 ^ 19 := by
    unfold GoFloat.toRat
    norm_num
  have h2 : GoFloat.float64Val ⟨1, 19⟩ = 10 ^ 19 := by
    have hfix := float64Round_fix (GoFloat.toRat ⟨1, 19⟩) 19073486328125 19
      (by decide) (by decide) (by rw [h1]; norm_num)
    unfold GoFloat.float64Val
    rw [hfix, h1]
  have hfl : ⌊(10 ^ 19 : ℚ)⌋ = 10 ^ 19 := by
    rw [show ((10 : ℚ) ^ 19) = (((10 ^ 19 : Int) : Int) : ℚ) by push_cast; ring]
    exact Int.floor_intCast _
  have h3 : helper.ToInt (.VFloat ⟨1, 19⟩) = -(2 ^ 63) := by
    have hT : helper.ToInt (.VFloat ⟨1, 19⟩)
        = int64Trunc (GoFloat.float64Val ⟨1, 19⟩) := rfl
    rw [hT, h2]
    unfold int64Trunc
    dsimp only
    rw [if_pos (by positivity : (0 : ℚ) ≤ 10 ^ 19), hfl,
      if_neg (by decide : ¬(-(2 ^ 63) ≤ (10 ^ 19 : Int) ∧ (10 ^ 19 : Int) ≤ 2 ^ 63 - 1))]
  refine ⟨h1, h2, h3, ?_, ?_⟩
  · rw [h1]
    exact hfl
  · rw [h3, h1, hfl]
    decide

/-- Witness for the amended C5 at concrete inputs: a successful parse, a
failed parse, the round trip on a negative `int64`, exactness of the binary
value on the representable numeral `-1.5` with the ceiling-side truncation
`ToInt(-1.5) = -1`, and the rounding-error bound at the numeral `3.9`. -/
theorem toInt_base10_truncation_zero_default_witness :
    (helper.ToInt (.VString "17") = 17) ∧
    (helper.ToInt (.VString "9x") = 0) ∧
    (helper.ToInt (.VString (String.mk (intRepr (-5)))) = -5) ∧
    (GoFloat.float64Val ⟨-15, -1⟩ = GoFloat.toRat ⟨-15, -1⟩) ∧
    (helper.ToInt (.VFloat ⟨-15, -1⟩) = -1) ∧
    (|GoFloat.float64Val ⟨39, -1⟩ - GoFloat.toRat ⟨39, -1⟩|
      ≤ (2 : ℚ) ^ (ratLog2 |GoFloat.toRat ⟨39, -1⟩| - 53)) := by
  have ht15 : GoFloat.toRat ⟨-15, -1⟩ = (-3 : ℚ) * (2 : ℚ) ^ (-1 : ℤ) := by
    unfold GoFloat.toRat
    norm_num
  have hfix : GoFloat.float64Val ⟨-15, -1⟩ = GoFloat.toRat ⟨-15, -1⟩ :=
    (toInt_base10_truncation_zero_default "x" ⟨-15, -1⟩ 0 0 0 false).2.2.2.2.2.1
      (-3) (-1) (by decide) (by decide) (by decide) ht15
  have hval15 : GoFloat.float64Val ⟨-15, -1⟩ = -3 / 2 := by
    rw [hfix, ht15]
    norm_num
  have hceil : ⌈GoFloat.float64Val ⟨-15, -1⟩⌉ = -1 := by
    rw [hval15, Int.ceil_eq_iff] <;> norm_num
  refine ⟨?_, ?_, ?_, hfix, ?_, ?_⟩
  · exact (toInt_base10_truncation_zero_default "17" ⟨0, 0⟩ 0 17 0 false).1 (by decide)
  · exact (toInt_base10_truncation_zero_default "9x" ⟨0, 0⟩ 0 0 0 false).2.1 (by decide)
  · exact (toInt_base10_truncation_zero_default "x" ⟨0, 0⟩ (-5) 0 0 false).2.2.1
      (by decide) (by decide)
  · have h := (toInt_base10_truncation_zero_default "x" ⟨-15, -1⟩ 0 0 0 false).2.2.2.2.1
      (by rw [hval15]; norm_num) (by rw [hceil]; decide) (by rw [hceil]; decide)
    rw [h, hceil]
  · have ht39 : (1 : ℚ) ≤ |GoFloat.toRat ⟨39, -1⟩| := by
      rw [show GoFloat.toRat ⟨39, -1⟩ = 39 / 10 by unfold GoFloat.toRat; norm_num]
      rw [abs_of_pos (by norm_num)]
      norm_num
    have ht39' : |GoFloat.toRat ⟨39, -1⟩| ≤ (2 : ℚ) ^ (1023 : Int) := by
      rw [show GoFloat.toRat ⟨39, -1⟩ = 39 / 10 by unfold GoFloat.toRat; norm_num]
      rw [abs_of_pos (by norm_num)]
      calc (39 / 10 : ℚ) ≤ 2 ^ (2 : ℤ) := by norm_num
        _ ≤ 2 ^ (1023 : ℤ) := zpow_le_zpow_right₀ (by norm_num) (by norm_num)
    exact (toInt_base10_truncation_zero_default "x" ⟨39, -1⟩ 0 0 0 false).2.2.2.2.2.2.1
      ht39 ht39'
